import Mathlib

/-!
# Verification of the go-prequal load balancer core

Shallow embedding of the go-prequal repository (Prequal / Hot-Cold-Lexicographic
replica selection). Pure data and algorithms are translated directly from the
Go source:

* `server/metric.go` — the latency-sample ring and the nearest-RIF median
  estimator (`getNearestLatencies`), including the bounded max-heap it uses.
  The heap driver is Go's `container/heap` (`up`/`down`/`Push`/`Pop`), which is
  part of the Go standard library; its sift algorithms are embedded verbatim
  (as fuel-indexed structural recursions so that they compute by reduction;
  the fuel is always sufficient: `up` strictly descends from index `j`, `down`
  strictly increases the index below `n`).
* `server/server.go` — the requests-in-flight (RIF) counter with modular
  `uint64` arithmetic, and the probe responder.
* `client/client.go` — the probe pool, `SelectReplica`, `Probe`,
  `removeStaleAndOverusedProbes`, `removeProbe`, `calculateBReuse`.

Modelling conventions: `uint64` values are `Nat` (with explicit `% 2^64` where
the Go code can wrap); `time.Duration` and `time.Time` are `Int` (nanoseconds);
Go `int` is `Int`; `float64` fields and arithmetic are modelled exactly over
`Rat` (real-valued semantics of the float expressions); network and clock
effects are passed explicitly (`now` instants, a `resp` function giving each
server's probe response). Mutexes serialise all operations in the source, so
each Go method becomes a pure state transformer.
-/

namespace GoPrequal

/-- `time.Duration`: a signed 64-bit count of nanoseconds (modelled as `Int`). -/
abbrev Duration := Int

/-! ## Server side: metric ring and nearest-RIF median (server/metric.go)

`Metric` is `server/metric.go`'s `Metric` struct: one `(RIF, Latency)` sample.
The estimator reuses the same struct for `(|RIF − query|, Latency)` pairs. -/

structure Metric where
  rif : Nat
  latency : Duration
deriving DecidableEq, Repr

/-- Element read with the Go slice's out-of-range behaviour irrelevant: every
access in the embedded algorithms is in range; a zero `Metric` is the default. -/
def nthM (l : List Metric) (i : Nat) : Metric :=
  l.getD i ⟨0, 0⟩

/-- `h.Swap(i, j)` on the backing slice. -/
def swapM (l : List Metric) (i j : Nat) : List Metric :=
  (l.set i (nthM l j)).set j (nthM l i)

/-- `container/heap`'s `up(h, j)` specialised to the repository's `MaxHeap`,
whose `Less(i, j)` is `h[i].RIF > h[j].RIF` (max-heap on the stored diff).
Modelled from the spec: the `MaxHeap` methods themselves are not under `src/`;
README ("a simple max heap to calculate medians") and the estimator's use —
popping must discard the largest |rif − q| so that the 5 smallest remain —
determine `Less` up to this. Go loop: `i := (j-1)/2; if i == j ||
!h.Less(j, i) { break }; h.Swap(i, j); j = i`. Fuel `j` suffices. -/
def heapUpF : Nat → List Metric → Nat → List Metric
  | 0, l, _ => l
  | fuel + 1, l, j =>
    if j = 0 then l
    else
      let i := (j - 1) / 2
      if (nthM l i).rif < (nthM l j).rif then heapUpF fuel (swapM l i j) i
      else l

def heapUp (l : List Metric) (j : Nat) : List Metric :=
  heapUpF j l j

/-- `container/heap`'s `down(h, i, n)` for the same `MaxHeap`. Go loop:
`j1 := 2*i+1; if j1 >= n { break }; j := j1; if j2 := j1 + 1; j2 < n &&
h.Less(j2, j1) { j = j2 }; if !h.Less(j, i) { break }; h.Swap(i, j); i = j`.
(The `j1 < 0` overflow guard of the Go source is vacuous over `Nat`.)
Fuel `n - i` suffices. -/
def heapDownF : Nat → List Metric → Nat → Nat → List Metric
  | 0, l, _, _ => l
  | fuel + 1, l, i, n =>
    if n ≤ 2 * i + 1 then l
    else
      let j := if 2 * i + 2 < n ∧ (nthM l (2 * i + 1)).rif < (nthM l (2 * i + 2)).rif
               then 2 * i + 2 else 2 * i + 1
      if (nthM l i).rif < (nthM l j).rif then heapDownF fuel (swapM l i j) j n
      else l

def heapDown (l : List Metric) (i n : Nat) : List Metric :=
  heapDownF (n - i) l i n

/-- `heap.Push(h, x)`: the interface `Push` appends, then `up(h, h.Len()-1)`. -/
def heapPushGo (l : List Metric) (x : Metric) : List Metric :=
  heapUp (l ++ [x]) l.length

/-- `heap.Pop(h)`: `n := h.Len()-1; h.Swap(0, n); down(h, 0, n)`, then the
interface `Pop` removes and returns the last element. -/
def heapPopGo (l : List Metric) : Metric × List Metric :=
  let n := l.length - 1
  let l2 := heapDown (swapM l 0 n) 0 n
  (nthM l2 n, l2.take n)

/-- The extraction loop of `getNearestLatencies`:
`for i := range latencies { latencies[i] = heap.Pop(h).(Metric).Latency }`.
Fuel `l.length` suffices (each pop shortens the heap by one). -/
def drainF : Nat → List Metric → List Duration
  | 0, _ => []
  | fuel + 1, l =>
    if l.length = 0 then []
    else
      let p := heapPopGo l
      p.1.latency :: drainF fuel p.2

def drain (l : List Metric) : List Duration :=
  drainF l.length l

/-- `MetricReporter.recordMetric` (capacity `maxMetrics = 1000`, FIFO drop). -/
def recordMetric (ms : List Metric) (rif : Nat) (latency : Duration) : List Metric :=
  let ms2 := ms ++ [⟨rif, latency⟩]
  if 1000 < ms2.length then ms2.drop 1 else ms2

/-- The `customMetric` built for each sample in `getNearestLatencies`:
`absDiff = |metric.RIF − rif|` (the Go branch `if metric.RIF > rif` on
`uint64` is exact over `Nat` this way), paired with the sample's latency. -/
def diffMetric (rif : Nat) (m : Metric) : Metric :=
  ⟨if rif < m.rif then m.rif - rif else rif - m.rif, m.latency⟩

/-- One iteration of the `getNearestLatencies` loop:
`heap.Push(h, customMetric); if h.Len() > 5 { heap.Pop(h) }`. -/
def pushStep (rif : Nat) (acc : List Metric) (m : Metric) : List Metric :=
  let acc2 := heapPushGo acc (diffMetric rif m)
  if 5 < acc2.length then (heapPopGo acc2).2 else acc2

/-- `MetricReporter.getNearestLatencies(rif)`: bounded max-heap of the 5
samples with smallest `|sample.RIF − rif|`, then the middle element of the
ascending latencies. Go sorts with `sort.Slice(latencies, less)`; any sort
produces the same (unique) ascending reordering, embedded here with
`List.insertionSort`. -/
def getNearestLatencies (ms : List Metric) (rif : Nat) : Duration :=
  if ms.length = 0 then 0
  else
    let h := ms.foldl (pushStep rif) []
    let latencies := drain h
    let sorted := List.insertionSort (· ≤ ·) latencies
    sorted.getD (sorted.length / 2) 0

/-! ## Server side: RIF counter and probe responder (server/server.go) -/

/-- The `uint64` modulus. -/
def U64MOD : Nat := 2 ^ 64

/-- `Server`: the atomic `rif` counter (a `uint64`, kept `< 2^64`) and the
metric reporter's ring. -/
structure ServerState where
  rif : Nat
  reporter : List Metric
deriving DecidableEq, Repr

/-- `incrementRIF`: `atomic.AddUint64(&s.rif, 1)`, returning the new value. -/
def incrementRIF (s : ServerState) : Nat × ServerState :=
  let v := (s.rif + 1) % U64MOD
  (v, { s with rif := v })

/-- `decrementRIF`: `atomic.AddUint64(&s.rif, ^uint64(0))` — adds `2^64 − 1`
modulo `2^64`, i.e. wrapping subtraction of one. Returns the new value. -/
def decrementRIF (s : ServerState) : Nat × ServerState :=
  let v := (s.rif + (U64MOD - 1)) % U64MOD
  (v, { s with rif := v })

/-- `getCurrentRIF`: `atomic.LoadUint64(&s.rif)`. -/
def getCurrentRIF (s : ServerState) : Nat :=
  s.rif

structure ProbeResponse where
  rif : Nat
  medianLatency : Duration
deriving DecidableEq, Repr

/-- `HandleProbe` (GET): responds with the current RIF and the conditional
median latency at that RIF. -/
def handleProbe (s : ServerState) : ProbeResponse :=
  let currentRIF := getCurrentRIF s
  { rif := currentRIF, medianLatency := getNearestLatencies s.reporter currentRIF }

/-! ## Client side (client/client.go) -/

/-- `ProbeInfo`: one pool entry. `NormalizedRIF` is a `float64` in Go,
modelled exactly over `Rat`. -/
structure ProbeInfo where
  rif : Nat
  latency : Duration
  serverId : String
  timestamp : Int
  useCount : Int
  normalizedRif : Rat
deriving DecidableEq, Repr

instance : Inhabited ProbeInfo := ⟨⟨0, 0, "", 0, 0, 0⟩⟩

/-- Pool entry read with a zero default (every embedded access is in range). -/
def nthP (l : List ProbeInfo) (i : Nat) : ProbeInfo :=
  l.getD i default

/-- `Config`. Go `int` fields are `Int`; durations are nanosecond `Int`s;
`float64` fields are `Rat`. -/
structure Config where
  maxProbePoolSize : Int
  numReplicas : Int
  probeRate : Rat
  qRifThreshold : Rat
  deltaReuse : Rat
  maxProbeAge : Int
  maxProbeUse : Int
  servers : List String
deriving DecidableEq, Repr

/-- `time.Duration.Seconds()`: the duration as (real-valued) seconds. -/
def durationSeconds (d : Int) : Rat :=
  (d : Rat) / 1000000000

/-- `calculateBReuse`. Go computes in `float64` and finishes with `int(bReuse)`,
which truncates toward zero; on the reached branch `bReuse ≥ 1`, truncation is
`Int.floor`. -/
def calculateBReuse (config : Config) : Int :=
  let rRemove : Rat := 1 / durationSeconds config.maxProbeAge
  let denominator : Rat :=
    (1 - (config.maxProbePoolSize : Rat) / (config.numReplicas : Rat) * config.probeRate)
      - rRemove
  let bReuse : Rat := (1 + config.deltaReuse) / denominator
  if bReuse < 1 then 1 else ⌊bReuse⌋

/-- `Client`: pool, configuration, server pool, and the running `maxRIF`.
(The tickers, channels and mutexes of the Go struct are concurrency plumbing;
every modelled operation runs under the client mutex.) -/
structure ClientState where
  config : Config
  probes : List ProbeInfo
  servers : List String
  maxRIF : Nat
deriving DecidableEq, Repr

/-- `NewClient`: apply the defaults (`M = 16`, `delta = 0.1`, `age = 5s`),
derive `MaxProbeUse`, cap the server list at 5, start with an empty pool and
`maxRIF = 0`. -/
def newClient (config : Config) (servers : List String) : ClientState :=
  let c1 := if config.maxProbePoolSize = 0 then { config with maxProbePoolSize := 16 } else config
  let c2 := if c1.deltaReuse = 0 then { c1 with deltaReuse := 1 / 10 } else c1
  let c3 := if c2.maxProbeAge = 0 then { c2 with maxProbeAge := 5000000000 } else c2
  let c4 := { c3 with maxProbeUse := calculateBReuse c3 }
  let srv := if 5 < servers.length then servers.take 5 else servers
  { config := c4, probes := [], servers := srv, maxRIF := 0 }

/-- `updateRIFDistribution`: `NormalizedRIF = RIF / maxRIF` when `maxRIF > 0`,
else `1`. -/
def updateRIFDistribution (maxRIF : Nat) (p : ProbeInfo) : ProbeInfo :=
  if 0 < maxRIF then { p with normalizedRif := (p.rif : Rat) / (maxRIF : Rat) }
  else { p with normalizedRif := 1 }

/-- `isProbeHot`: `probe.NormalizedRIF >= c.config.QRIFThreshold`. -/
def isProbeHot (config : Config) (p : ProbeInfo) : Bool :=
  config.qRifThreshold ≤ p.normalizedRif

/-- The `use_count` bump of `SelectReplica`: increment the first pool entry
whose `ServerID` matches, then `break`. -/
def incrementFirstMatch : List ProbeInfo → String → List ProbeInfo
  | [], _ => []
  | p :: ps, sid =>
    if p.serverId = sid then { p with useCount := p.useCount + 1 } :: ps
    else p :: incrementFirstMatch ps sid

/-- The probe `SelectReplica` picks on a non-empty pool. The one-pass hot/cold
partition of the Go loop preserves pool order in both parts, as the two
filters do. The selection loops start from element 0 and replace the candidate
on a strict improvement, exactly as the Go loops over `coldProbes` /
`hotProbes` do (`coldProbes[i].RIF < selected.RIF`, resp. `.Latency`). -/
def selectedProbe (c : ClientState) : ProbeInfo :=
  let hotProbes := c.probes.filter (fun p => isProbeHot c.config p)
  let coldProbes := c.probes.filter (fun p => !isProbeHot c.config p)
  if coldProbes ≠ [] then
    coldProbes.foldl (fun sel p => if p.rif < sel.rif then p else sel)
      (coldProbes.headD default)
  else
    hotProbes.foldl (fun sel p => if p.latency < sel.latency then p else sel)
      (hotProbes.headD default)

/-- `SelectReplica`: result is `(returned ServerID, error, post state)`; the Go
function returns `("", err)` on an empty pool and `(id, nil)` otherwise. -/
def selectReplica (c : ClientState) : String × Option String × ClientState :=
  if c.probes = [] then ("", some "no probes available", c)
  else
    ((selectedProbe c).serverId, none,
      { c with probes := incrementFirstMatch c.probes (selectedProbe c).serverId })

/-- `removeStaleAndOverusedProbes`: keep exactly the probes with
`now − timestamp < MaxProbeAge` and `UseCount < MaxProbeUse`. -/
def removeStaleAndOverusedProbes (c : ClientState) (now : Int) : ClientState :=
  { c with probes := c.probes.filter (fun p =>
      now - p.timestamp < c.config.maxProbeAge ∧ p.useCount < c.config.maxProbeUse) }

/-- `removeProbeByServerID`: delete the first pool entry with the given id. -/
def removeFirstById : List ProbeInfo → String → List ProbeInfo
  | [], _ => []
  | p :: ps, sid => if p.serverId = sid then ps else p :: removeFirstById ps sid

/-- The probe `removeProbe` targets on a non-empty pool: with hot probes
present, the hot probe of largest RIF (first on ties, via the strict `>` in
the Go loop `probe.RIF > hotProbes[maxRIFIndex].RIF`); with an all-cold pool,
the probe of largest latency over the whole pool (same loop shape). -/
def removeVictim (c : ClientState) : ProbeInfo :=
  let hotProbes := c.probes.filter (fun p => isProbeHot c.config p)
  if hotProbes ≠ [] then
    hotProbes.foldl (fun sel p => if sel.rif < p.rif then p else sel)
      (hotProbes.headD default)
  else
    c.probes.foldl (fun sel p => if sel.latency < p.latency then p else sel)
      (c.probes.headD default)

/-- `removeProbe`: delete the first pool entry carrying the victim's server
id (`removeProbeByServerID`); no-op on an empty pool. -/
def removeProbe (c : ClientState) : ClientState :=
  if c.probes = [] then c
  else { c with probes := removeFirstById c.probes (removeVictim c).serverId }

/-- `Probe` (one probe round). `now` is the round's clock instant and
`resp server = some (rif, latency)` models a successful `ProbeServer` call
(`none` a transport/decode failure, skipped silently). A fresh `ProbeInfo`
carries `Timestamp = now`, `UseCount = 0` and the zero value of
`NormalizedRIF`; `maxRIF` is raised before appending; after the fan-out every
pool entry's `NormalizedRIF` is refreshed from the final `maxRIF`.
`probeFanoutStep` is the body of the fan-out loop over `c.pool.Servers`. -/
def probeFanoutStep (now : Int) (resp : String → Option (Nat × Duration))
    (st : ClientState) (srv : String) : ClientState :=
  match resp srv with
  | none => st
  | some (rif, latency) =>
    let st2 := if st.maxRIF < rif then { st with maxRIF := rif } else st
    { st2 with probes := st2.probes ++ [⟨rif, latency, srv, now, 0, 0⟩] }

/-- The capacity check of `Probe`:
`if len(c.probes) >= c.config.MaxProbePoolSize { c.removeProbe() }` — an
`if`, evicting at most one probe per round. -/
def probeRoundCapacity (c1 : ClientState) : ClientState :=
  if c1.config.maxProbePoolSize ≤ (c1.probes.length : Int) then removeProbe c1 else c1

/-- `Probe`: purge, capacity check, fan-out over the configured servers, then
the normalisation refresh. -/
def probeRound (c : ClientState) (now : Int) (resp : String → Option (Nat × Duration)) :
    ClientState :=
  let c1 := removeStaleAndOverusedProbes c now
  let c2 := probeRoundCapacity c1
  let c3 := c2.servers.foldl (probeFanoutStep now resp) c2
  { c3 with probes := c3.probes.map (updateRIFDistribution c3.maxRIF) }

/-! ## Concrete instances used by the witnesses and counterexamples -/

/-- The spec's §8 scenario 1 ring: samples recorded through `recordMetric`
(latencies in nanoseconds: 10ms, 20ms, …). -/
def ringEx : List Metric :=
  [(1, 10000000), (3, 20000000), (9, 30000000), (21, 40000000),
   (42, 50000000), (1, 60000000), (7, 70000000)].foldl
    (fun ms p => recordMetric ms p.1 p.2) []

/-- A ceiling-vs-truncation separating configuration for `calculateBReuse`:
`age = 4s`, `M = 1`, `N = 4`, `r_probe = 1`, `delta = 1/4`. All intermediate
float values are dyadic, so the float run is exact and agrees with `Rat`:
`denom = (1 − 1/4) − 1/4 = 1/2`, `bReuse = (5/4)/(1/2) = 5/2`. -/
def cfgC4 : Config :=
  { maxProbePoolSize := 1, numReplicas := 4, probeRate := 1, qRifThreshold := 1,
    deltaReuse := 1/4, maxProbeAge := 4000000000, maxProbeUse := 0, servers := [] }

/-- A configuration with positive denominator for the `calculateBReuse`
witness: `age = 2s`, `M = 1`, `N = 4`, `r = 1`, `delta = 2`, so
`denom = 3/4 − 1/2 = 1/4` and `bReuse = 3/(1/4) = 12`. -/
def cfgC4W : Config :=
  { maxProbePoolSize := 1, numReplicas := 4, probeRate := 1, qRifThreshold := 1,
    deltaReuse := 2, maxProbeAge := 2000000000, maxProbeUse := 0, servers := [] }

/-- Configuration for the pool-bound counterexample: `M = 2`, `N = 2`,
`r = 1`, `Q_RIF = 2` (every probe cold, since normalised RIF ≤ 1),
`delta = 2`, `age = 1s`. `calculateBReuse` gives `(1+2)/((1−1)−1) = −3 < 1`,
clamped to `1`. -/
def cfgC3 : Config :=
  { maxProbePoolSize := 2, numReplicas := 2, probeRate := 1, qRifThreshold := 2,
    deltaReuse := 2, maxProbeAge := 1000000000, maxProbeUse := 0, servers := ["a", "b"] }

/-- The client state `newClient cfgC3 ["a", "b"]` evaluates to. -/
def clientC3 : ClientState :=
  { config := { cfgC3 with maxProbeUse := 1 }, probes := [], servers := ["a", "b"],
    maxRIF := 0 }

/-- Every probe succeeds, reporting `rif = 0`, `latency = 0`. -/
def respC3 : String → Option (Nat × Duration) :=
  fun _ => some (0, 0)

/-- Four consecutive successful rounds from construction (clock ticking
`0, 1, 2, 3`). -/
def clientC3run : ClientState :=
  probeRound (probeRound (probeRound (probeRound clientC3 0 respC3) 1 respC3) 2 respC3) 3
    respC3

/-- Two pool entries sharing `ServerID = "A"`: entry 0 cold (`rif = 1`,
normalised RIF `0`), entry 1 hot (`rif = 99`, normalised RIF `1`), with
`Q_RIF = 1`. -/
def cfgC5 : Config :=
  { maxProbePoolSize := 16, numReplicas := 1, probeRate := 1, qRifThreshold := 1,
    deltaReuse := 1, maxProbeAge := 1000000000, maxProbeUse := 10, servers := ["A"] }

def coldA : ProbeInfo := ⟨1, 5, "A", 0, 0, 0⟩

def hotA : ProbeInfo := ⟨99, 7, "A", 0, 0, 1⟩

def clientC5 : ClientState :=
  { config := cfgC5, probes := [coldA, hotA], servers := ["A"], maxRIF := 99 }

/-- The spec's §8 scenario 4 pool: one hot entry `rif = 99` and four cold
entries `rif ∈ {1,2,3,4}`, distinct servers, `Q_RIF = 1`. -/
def clientC5W : ClientState :=
  { config := { cfgC5 with servers := ["h", "c1", "c2", "c3", "c4"] },
    probes := [⟨1, 11, "c1", 0, 0, 0⟩, ⟨99, 5, "h", 0, 0, 1⟩, ⟨2, 12, "c2", 0, 0, 0⟩,
               ⟨3, 13, "c3", 0, 0, 0⟩, ⟨4, 14, "c4", 0, 0, 0⟩],
    servers := ["h", "c1", "c2", "c3", "c4"], maxRIF := 99 }

/-- The spec's §8 scenario 2 pool: `A` hot (`rif = 100`), `B` cold
(`rif = 1`), `max_rif = 100`, `Q_RIF = 1/2` — modelled with the normalised
values `1` and `0` against `Q_RIF = 1` to stay within exact numerals. -/
def clientC1W : ClientState :=
  { config := { cfgC5 with servers := ["A", "B"] },
    probes := [⟨100, 5000000, "A", 0, 0, 1⟩, ⟨1, 80000000, "B", 0, 0, 0⟩],
    servers := ["A", "B"], maxRIF := 100 }

/-! ## Specification predicates -/

/-- Max-heap property on the first `n` positions of the backing slice:
every non-root node is at most its parent (on the stored `rif` key). -/
def IsHeapPre (n : Nat) (l : List Metric) : Prop :=
  ∀ k, 0 < k → k < n → (nthM l k).rif ≤ (nthM l ((k - 1) / 2)).rif

/-- Max-heap property on the whole backing slice. -/
def IsHeap (l : List Metric) : Prop :=
  IsHeapPre l.length l

/-- Invariant of the bounded-heap scan in `getNearestLatencies`: after
processing `seen`, the heap `h` holds (a choice of) the `min |seen| 5`
smallest-diff entries — the remaining entries `rest` all have diffs at least
every diff kept in `h`. -/
def HeapInv (rif : Nat) (seen h : List Metric) : Prop :=
  ∃ rest, (seen.map (diffMetric rif)).Perm (h ++ rest) ∧
    (∀ x ∈ h, ∀ y ∈ rest, x.rif ≤ y.rif) ∧
    h.length = min seen.length 5 ∧ IsHeap h

/-! # Theorems

## Basic facts about the heap's backing slice -/

theorem nthM_eq_getElem (l : List Metric) (i : Nat) (h : i < l.length) : nthM l i = l[i] :=
  List.getD_eq_getElem l _ h

theorem length_swapM (l : List Metric) (i j : Nat) : (swapM l i j).length = l.length := by
  simp [swapM]

theorem nthM_swapM_snd (l : List Metric) (i j : Nat) (hj : j < l.length) :
    nthM (swapM l i j) j = nthM l i := by
  unfold swapM nthM
  rw [List.getD_eq_getElem?_getD, List.getElem?_set_self (by simpa using hj)]
  rfl

theorem nthM_swapM_fst (l : List Metric) (i j : Nat) (hi : i < l.length) (hj : j < l.length) :
    nthM (swapM l i j) i = nthM l j := by
  rcases eq_or_ne j i with rfl | hne
  · exact nthM_swapM_snd l j j hj
  · unfold swapM nthM
    rw [List.getD_eq_getElem?_getD, List.getElem?_set_ne hne,
      List.getElem?_set_self (by simpa using hi)]
    rfl

theorem nthM_swapM_other (l : List Metric) (i j k : Nat) (hki : k ≠ i) (hkj : k ≠ j) :
    nthM (swapM l i j) k = nthM l k := by
  unfold swapM nthM
  rw [List.getD_eq_getElem?_getD, List.getElem?_set_ne (Ne.symm hkj),
    List.getElem?_set_ne (Ne.symm hki), List.getD_eq_getElem?_getD]

theorem swapM_perm (l : List Metric) (i j : Nat) (hi : i < l.length) (hj : j < l.length) :
    (swapM l i j).Perm l := by
  rw [List.perm_iff_count]
  intro b
  have hj' : j < (l.set i (nthM l j)).length := by simpa using hj
  have hset? : (l.set i (nthM l j))[j]? = some (nthM l j) := by
    rcases eq_or_ne i j with rfl | hne
    · rw [List.getElem?_set_self (by simpa using hj)]
    · rw [List.getElem?_set_ne hne, List.getElem?_eq_getElem hj, nthM_eq_getElem l j hj]
  have hset : (l.set i (nthM l j))[j] = nthM l j := by
    have h2 := List.getElem?_eq_getElem hj'
    rw [h2] at hset?
    exact Option.some.inj hset?
  unfold swapM
  rw [List.count_set (nthM l i) b _ j hj', List.count_set (nthM l j) b l i hi, hset]
  have hmem : l[i] ∈ l := List.getElem_mem hi
  have hcount : (if (l[i] == b) = true then 1 else 0) ≤ List.count b l := by
    split
    · next h => exact List.one_le_count_iff.mpr (by rwa [← (beq_iff_eq ..).mp h])
    · exact Nat.zero_le _
  rw [nthM_eq_getElem l i hi]
  omega

/-! ## The sift operations: length, permutation, untouched suffix -/

theorem heapUpF_length : ∀ (fuel : Nat) (l : List Metric) (j : Nat),
    (heapUpF fuel l j).length = l.length := by
  intro fuel
  induction fuel with
  | zero => intro l j; rfl
  | succ fuel ih =>
    intro l j
    by_cases hj0 : j = 0
    · simp [heapUpF, hj0]
    · by_cases hc : (nthM l ((j - 1) / 2)).rif < (nthM l j).rif
      · simp only [heapUpF, hj0, if_false, hc, if_true]
        rw [ih, length_swapM]
      · simp [heapUpF, hj0, hc]

theorem heapDownF_length : ∀ (fuel : Nat) (l : List Metric) (i n : Nat),
    (heapDownF fuel l i n).length = l.length := by
  intro fuel
  induction fuel with
  | zero => intro l i n; rfl
  | succ fuel ih =>
    intro l i n
    by_cases hn : n ≤ 2 * i + 1
    · simp [heapDownF, hn]
    · simp only [heapDownF, hn, if_false]
      split
      · split
        · rw [ih, length_swapM]
        · rfl
      · split
        · rw [ih, length_swapM]
        · rfl

theorem heapUpF_perm : ∀ (fuel : Nat) (l : List Metric) (j : Nat), j < l.length →
    (heapUpF fuel l j).Perm l := by
  intro fuel
  induction fuel with
  | zero => intro l j _; exact List.Perm.refl l
  | succ fuel ih =>
    intro l j hj
    by_cases hj0 : j = 0
    · simp [heapUpF, hj0]
    · have hi : (j - 1) / 2 < l.length := lt_of_le_of_lt (by omega) hj
      by_cases hc : (nthM l ((j - 1) / 2)).rif < (nthM l j).rif
      · simp only [heapUpF, hj0, if_false, hc, if_true]
        exact (ih _ _ (by rw [length_swapM]; exact lt_of_le_of_lt (by omega) hj)).trans
          (swapM_perm l _ j hi hj)
      · simp [heapUpF, hj0, hc]

theorem heapDownF_perm : ∀ (fuel : Nat) (l : List Metric) (i n : Nat), n ≤ l.length →
    (heapDownF fuel l i n).Perm l := by
  intro fuel
  induction fuel with
  | zero => intro l i n _; exact List.Perm.refl l
  | succ fuel ih =>
    intro l i n hn'
    by_cases hn : n ≤ 2 * i + 1
    · simp [heapDownF, hn]
    · simp only [heapDownF, hn, if_false]
      by_cases hsel : 2 * i + 2 < n ∧ (nthM l (2 * i + 1)).rif < (nthM l (2 * i + 2)).rif
      · simp only [if_pos hsel]
        split
        · exact (ih _ _ _ (by rwa [length_swapM])).trans
            (swapM_perm l i (2 * i + 2) (by omega) (by omega))
        · exact List.Perm.refl l
      · simp only [if_neg hsel]
        split
        · exact (ih _ _ _ (by rwa [length_swapM])).trans
            (swapM_perm l i (2 * i + 1) (by omega) (by omega))
        · exact List.Perm.refl l

theorem heapDownF_nth_ge : ∀ (fuel : Nat) (l : List Metric) (i n k : Nat), n ≤ k →
    nthM (heapDownF fuel l i n) k = nthM l k := by
  intro fuel
  induction fuel with
  | zero => intro l i n k _; rfl
  | succ fuel ih =>
    intro l i n k hk
    by_cases hn : n ≤ 2 * i + 1
    · simp [heapDownF, hn]
    · simp only [heapDownF, hn, if_false]
      by_cases hsel : 2 * i + 2 < n ∧ (nthM l (2 * i + 1)).rif < (nthM l (2 * i + 2)).rif
      · simp only [if_pos hsel]
        split
        · rw [ih _ _ _ _ hk, nthM_swapM_other l i (2 * i + 2) k (by omega) (by omega)]
        · rfl
      · simp only [if_neg hsel]
        split
        · rw [ih _ _ _ _ hk, nthM_swapM_other l i (2 * i + 1) k (by omega) (by omega)]
        · rfl

/-! ## Sift-up establishes the heap property

Precondition: the heap property holds at every edge except possibly the one
out of `j`, and the children of `j` (if any) are bounded by `j`'s parent. -/

theorem heapUpF_heap : ∀ (fuel : Nat) (l : List Metric) (j : Nat), j ≤ fuel → j < l.length →
    (∀ k, 0 < k → k < l.length → k ≠ j → (nthM l k).rif ≤ (nthM l ((k - 1) / 2)).rif) →
    (0 < j → ∀ k, k < l.length → (k - 1) / 2 = j → (nthM l k).rif ≤ (nthM l ((j - 1) / 2)).rif) →
    IsHeapPre l.length (heapUpF fuel l j) := by
  intro fuel
  induction fuel with
  | zero =>
    intro l j hfuel _ h1 _
    have hj0 : j = 0 := by omega
    intro k hk0 hklen
    exact h1 k hk0 hklen (by omega)
  | succ fuel ih =>
    intro l j hfuel hj h1 h2
    by_cases hj0 : j = 0
    · subst hj0
      simp only [heapUpF, if_pos rfl]
      intro k hk0 hklen
      exact h1 k hk0 hklen (by omega)
    · have hil : (j - 1) / 2 < l.length := lt_of_le_of_lt (by omega) hj
      by_cases hc : (nthM l ((j - 1) / 2)).rif < (nthM l j).rif
      · simp only [heapUpF, hj0, if_false, if_pos hc]
        have hlen' : (swapM l ((j - 1) / 2) j).length = l.length := length_swapM ..
        have key := ih (swapM l ((j - 1) / 2) j) ((j - 1) / 2) (by omega) (by omega)
          (by
            intro k hk0 hklen hki
            rw [hlen'] at hklen
            rcases eq_or_ne k j with rfl | hkj
            · rw [nthM_swapM_snd l _ k hj, nthM_swapM_fst l _ k hil hj]
              exact le_of_lt hc
            · rw [nthM_swapM_other l _ j k hki hkj]
              by_cases hpi : (k - 1) / 2 = (j - 1) / 2
              · rw [hpi, nthM_swapM_fst l _ j hil hj]
                have t1 := h1 k hk0 hklen hkj
                rw [hpi] at t1
                exact le_trans t1 (le_of_lt hc)
              · by_cases hpj : (k - 1) / 2 = j
                · rw [hpj, nthM_swapM_snd l _ j hj]
                  exact h2 (by omega) k hklen hpj
                · rw [nthM_swapM_other l _ j _ hpi hpj]
                  exact h1 k hk0 hklen hkj)
          (by
            intro hi0 k hklen hpk
            rw [hlen'] at hklen
            rw [nthM_swapM_other l _ j (((j - 1) / 2 - 1) / 2) (by omega) (by omega)]
            rcases eq_or_ne k j with rfl | hkj
            · rw [nthM_swapM_snd l _ k hj]
              exact h1 _ hi0 hil (by omega)
            · have hki : k ≠ (j - 1) / 2 := by omega
              rw [nthM_swapM_other l _ j k hki hkj]
              have t1 := h1 k (by omega) hklen hkj
              rw [hpk] at t1
              exact le_trans t1 (h1 _ hi0 hil (by omega)))
        rwa [hlen'] at key
      · simp only [heapUpF, hj0, if_false, if_neg hc]
        intro k hk0 hklen
        rcases eq_or_ne k j with rfl | hkj
        · exact le_of_not_lt hc
        · exact h1 k hk0 hklen hkj

/-! ## Sift-down establishes the heap property on the prefix

Precondition: on the first `n` positions, the heap property holds except
possibly on the edges out of `i`'s children, and `i`'s children are bounded by
`i`'s parent. -/

theorem heapDownF_heap : ∀ (fuel : Nat) (l : List Metric) (i n : Nat), n - i ≤ fuel →
    n ≤ l.length →
    (∀ k, 0 < k → k < n → (k - 1) / 2 ≠ i → (nthM l k).rif ≤ (nthM l ((k - 1) / 2)).rif) →
    (0 < i → ∀ k, k < n → (k - 1) / 2 = i → (nthM l k).rif ≤ (nthM l ((i - 1) / 2)).rif) →
    IsHeapPre n (heapDownF fuel l i n) := by
  intro fuel
  induction fuel with
  | zero =>
    intro l i n hfuel _ h1 _
    intro k hk0 hklen
    exact h1 k hk0 hklen (by omega)
  | succ fuel ih =>
    intro l i n hfuel hn' h1 h2
    by_cases hn : n ≤ 2 * i + 1
    · simp only [heapDownF, if_pos hn]
      intro k hk0 hklen
      exact h1 k hk0 hklen (by omega)
    · simp only [heapDownF, hn, if_false]
      by_cases hsel : 2 * i + 2 < n ∧ (nthM l (2 * i + 1)).rif < (nthM l (2 * i + 2)).rif
      · simp only [if_pos hsel]
        have hchild : ∀ k, 0 < k → k < n → (k - 1) / 2 = i →
            (nthM l k).rif ≤ (nthM l (2 * i + 2)).rif := by
          intro k hk0 hk hp
          have hk12 : k = 2 * i + 1 ∨ k = 2 * i + 2 := by omega
          rcases hk12 with rfl | rfl
          · exact le_of_lt hsel.2
          · exact le_refl _
        by_cases hc : (nthM l i).rif < (nthM l (2 * i + 2)).rif
        · simp only [if_pos hc]
          apply ih (swapM l i (2 * i + 2)) (2 * i + 2) n (by omega)
            (by rw [length_swapM]; exact hn')
          · intro k hk0 hklen hkp
            rcases eq_or_ne k i with rfl | hki
            · rw [nthM_swapM_fst l k (2 * k + 2) (by omega) (by omega),
                nthM_swapM_other l k (2 * k + 2) ((k - 1) / 2) (by omega) (by omega)]
              exact h2 hk0 (2 * k + 2) (by omega) (by omega)
            · rcases eq_or_ne k (2 * i + 2) with rfl | hkj
              · rw [nthM_swapM_snd l i (2 * i + 2) (by omega)]
                have hp : (2 * i + 2 - 1) / 2 = i := by omega
                rw [hp, nthM_swapM_fst l i (2 * i + 2) (by omega) (by omega)]
                exact le_of_lt hc
              · rw [nthM_swapM_other l i (2 * i + 2) k hki hkj]
                by_cases hpi : (k - 1) / 2 = i
                · rw [hpi, nthM_swapM_fst l i (2 * i + 2) (by omega) (by omega)]
                  exact hchild k hk0 hklen hpi
                · rw [nthM_swapM_other l i (2 * i + 2) ((k - 1) / 2) hpi hkp]
                  exact h1 k hk0 hklen hpi
          · intro _ k hklen hpk
            have hki : k ≠ i := by omega
            have hkj : k ≠ 2 * i + 2 := by omega
            rw [nthM_swapM_other l i (2 * i + 2) k hki hkj]
            have hgp : (2 * i + 2 - 1) / 2 = i := by omega
            rw [hgp, nthM_swapM_fst l i (2 * i + 2) (by omega) (by omega)]
            have t1 := h1 k (by omega) hklen (by omega)
            rwa [hpk] at t1
        · simp only [if_neg hc]
          intro k hk0 hklen
          by_cases hpi : (k - 1) / 2 = i
          · rw [hpi]
            exact le_trans (hchild k hk0 hklen hpi) (le_of_not_lt hc)
          · exact h1 k hk0 hklen hpi
      · simp only [if_neg hsel]
        have hchild : ∀ k, 0 < k → k < n → (k - 1) / 2 = i →
            (nthM l k).rif ≤ (nthM l (2 * i + 1)).rif := by
          intro k hk0 hk hp
          have hk12 : k = 2 * i + 1 ∨ k = 2 * i + 2 := by omega
          rcases hk12 with rfl | rfl
          · exact le_refl _
          · have h22 : 2 * i + 2 < n := hk
            have : ¬ (nthM l (2 * i + 1)).rif < (nthM l (2 * i + 2)).rif := by
              intro hlt
              exact hsel ⟨h22, hlt⟩
            exact le_of_not_lt this
        by_cases hc : (nthM l i).rif < (nthM l (2 * i + 1)).rif
        · simp only [if_pos hc]
          apply ih (swapM l i (2 * i + 1)) (2 * i + 1) n (by omega)
            (by rw [length_swapM]; exact hn')
          · intro k hk0 hklen hkp
            rcases eq_or_ne k i with rfl | hki
            · rw [nthM_swapM_fst l k (2 * k + 1) (by omega) (by omega),
                nthM_swapM_other l k (2 * k + 1) ((k - 1) / 2) (by omega) (by omega)]
              exact h2 hk0 (2 * k + 1) (by omega) (by omega)
            · rcases eq_or_ne k (2 * i + 1) with rfl | hkj
              · rw [nthM_swapM_snd l i (2 * i + 1) (by omega)]
                have hp : (2 * i + 1 - 1) / 2 = i := by omega
                rw [hp, nthM_swapM_fst l i (2 * i + 1) (by omega) (by omega)]
                exact le_of_lt hc
              · rw [nthM_swapM_other l i (2 * i + 1) k hki hkj]
                by_cases hpi : (k - 1) / 2 = i
                · rw [hpi, nthM_swapM_fst l i (2 * i + 1) (by omega) (by omega)]
                  exact hchild k hk0 hklen hpi
                · rw [nthM_swapM_other l i (2 * i + 1) ((k - 1) / 2) hpi hkp]
                  exact h1 k hk0 hklen hpi
          · intro _ k hklen hpk
            have hki : k ≠ i := by omega
            have hkj : k ≠ 2 * i + 1 := by omega
            rw [nthM_swapM_other l i (2 * i + 1) k hki hkj]
            have hgp : (2 * i + 1 - 1) / 2 = i := by omega
            rw [hgp, nthM_swapM_fst l i (2 * i + 1) (by omega) (by omega)]
            have t1 := h1 k (by omega) hklen (by omega)
            rwa [hpk] at t1
        · simp only [if_neg hc]
          intro k hk0 hklen
          by_cases hpi : (k - 1) / 2 = i
          · rw [hpi]
            exact le_trans (hchild k hk0 hklen hpi) (le_of_not_lt hc)
          · exact h1 k hk0 hklen hpi

/-! ## Push and pop on the bounded heap -/

theorem isHeapPre_root_max (n : Nat) (l : List Metric) (h : IsHeapPre n l) :
    ∀ k, k < n → (nthM l k).rif ≤ (nthM l 0).rif := by
  intro k
  induction k using Nat.strong_induction_on with
  | _ k ih =>
    intro hk
    rcases Nat.eq_zero_or_pos k with rfl | hk0
    · exact le_refl _
    · exact le_trans (h k hk0 hk) (ih ((k - 1) / 2) (by omega) (by omega))

theorem nthM_append (l : List Metric) (x : Metric) (k : Nat) (h : k < l.length) :
    nthM (l ++ [x]) k = nthM l k := by
  unfold nthM
  rw [List.getD_eq_getElem?_getD, List.getElem?_append_left h, List.getD_eq_getElem?_getD]

theorem nthM_take (l : List Metric) (n k : Nat) (h : k < n) :
    nthM (l.take n) k = nthM l k := by
  unfold nthM
  rw [List.getD_eq_getElem?_getD, List.getElem?_take, if_pos h, List.getD_eq_getElem?_getD]

theorem heapPushGo_perm (l : List Metric) (x : Metric) :
    (heapPushGo l x).Perm (x :: l) := by
  unfold heapPushGo heapUp
  exact (heapUpF_perm _ _ _ (by simp)).trans (List.perm_append_singleton x l)

theorem heapPushGo_length (l : List Metric) (x : Metric) :
    (heapPushGo l x).length = l.length + 1 := by
  have := (heapPushGo_perm l x).length_eq
  simpa using this

theorem heapPushGo_heap (l : List Metric) (x : Metric) (hl : IsHeap l) :
    IsHeap (heapPushGo l x) := by
  unfold heapPushGo heapUp
  have key := heapUpF_heap l.length (l ++ [x]) l.length (le_refl _) (by simp)
    (by
      intro k hk0 hklen hkj
      have hkl : k < l.length := by
        simp only [List.length_append, List.length_singleton] at hklen
        omega
      rw [nthM_append _ x k hkl, nthM_append _ x _ (lt_of_le_of_lt (by omega) hkl)]
      exact hl k hk0 hkl)
    (by
      intro hj0 k hklen hpk
      exfalso
      simp only [List.length_append, List.length_singleton] at hklen
      omega)
  unfold IsHeap
  rw [heapUpF_length]
  exact key

theorem heapPopGo_eq (l : List Metric) :
    heapPopGo l = (nthM (heapDown (swapM l 0 (l.length - 1)) 0 (l.length - 1)) (l.length - 1),
      (heapDown (swapM l 0 (l.length - 1)) 0 (l.length - 1)).take (l.length - 1)) := rfl

theorem heapPopGo_perm (l : List Metric) (hne : l ≠ []) :
    l.Perm ((heapPopGo l).1 :: (heapPopGo l).2) := by
  have hlen : 0 < l.length := List.length_pos.mpr hne
  rw [heapPopGo_eq]
  have hlen2 : (heapDown (swapM l 0 (l.length - 1)) 0 (l.length - 1)).length = l.length := by
    unfold heapDown
    rw [heapDownF_length, length_swapM]
  have hperm : (heapDown (swapM l 0 (l.length - 1)) 0 (l.length - 1)).Perm l := by
    unfold heapDown
    exact (heapDownF_perm _ _ _ _ (by rw [length_swapM]; omega)).trans
      (swapM_perm l 0 (l.length - 1) (by omega) (by omega))
  have hsplit : heapDown (swapM l 0 (l.length - 1)) 0 (l.length - 1) =
      (heapDown (swapM l 0 (l.length - 1)) 0 (l.length - 1)).take (l.length - 1) ++
        [nthM (heapDown (swapM l 0 (l.length - 1)) 0 (l.length - 1)) (l.length - 1)] := by
    have hn2 : l.length - 1 < (heapDown (swapM l 0 (l.length - 1)) 0 (l.length - 1)).length := by
      omega
    conv_lhs => rw [← List.take_append_drop (l.length - 1)
      (heapDown (swapM l 0 (l.length - 1)) 0 (l.length - 1))]
    congr 1
    rw [List.drop_eq_getElem_cons hn2, nthM_eq_getElem _ _ hn2]
    congr 1
    exact List.drop_eq_nil_of_le (by omega)
  refine (hperm.symm).trans ?_
  conv_lhs => rw [hsplit]
  exact List.perm_append_singleton _ _

theorem heapPopGo_length (l : List Metric) (hne : l ≠ []) :
    (heapPopGo l).2.length = l.length - 1 := by
  have := (heapPopGo_perm l hne).length_eq
  simp only [List.length_cons] at this
  omega

theorem heapPopGo_max (l : List Metric) (hne : l ≠ []) (hl : IsHeap l) :
    ∀ x ∈ l, x.rif ≤ (heapPopGo l).1.rif := by
  have hlen : 0 < l.length := List.length_pos.mpr hne
  intro x hx
  have hroot : (heapPopGo l).1 = nthM l 0 := by
    rw [heapPopGo_eq]
    show nthM (heapDown (swapM l 0 (l.length - 1)) 0 (l.length - 1)) (l.length - 1) = nthM l 0
    unfold heapDown
    rw [heapDownF_nth_ge _ _ _ _ _ (le_refl _), nthM_swapM_snd l 0 (l.length - 1) (by omega)]
  rw [hroot]
  obtain ⟨k, hk, hkx⟩ := List.mem_iff_getElem.mp hx
  have : nthM l k = x := by rw [nthM_eq_getElem l k hk, hkx]
  rw [← this]
  exact isHeapPre_root_max l.length l hl k hk

theorem heapPopGo_heap (l : List Metric) (hne : l ≠ []) (hl : IsHeap l) :
    IsHeap (heapPopGo l).2 := by
  have hlen : 0 < l.length := List.length_pos.mpr hne
  rw [heapPopGo_eq]
  show IsHeap ((heapDown (swapM l 0 (l.length - 1)) 0 (l.length - 1)).take (l.length - 1))
  have hlen2 : (heapDown (swapM l 0 (l.length - 1)) 0 (l.length - 1)).length = l.length := by
    unfold heapDown
    rw [heapDownF_length, length_swapM]
  have key : IsHeapPre (l.length - 1) (heapDown (swapM l 0 (l.length - 1)) 0 (l.length - 1)) := by
    unfold heapDown
    apply heapDownF_heap _ _ _ _ (le_refl _) (by rw [length_swapM]; omega)
    · intro k hk0 hklen hkp
      rw [nthM_swapM_other l 0 (l.length - 1) k (by omega) (by omega),
        nthM_swapM_other l 0 (l.length - 1) ((k - 1) / 2) (by omega) (by omega)]
      exact hl k hk0 (by omega)
    · intro h0
      exact absurd h0 (lt_irrefl 0)
  unfold IsHeap
  intro k hk0 hklen
  rw [List.length_take] at hklen
  have hkn : k < l.length - 1 := lt_of_lt_of_le hklen (min_le_left _ _)
  rw [nthM_take _ _ _ hkn, nthM_take _ _ _ (by omega)]
  exact key k hk0 hkn

/-! ## The bounded scan keeps (a choice of) the five smallest diffs -/

theorem pushStep_inv (q : Nat) (seen h : List Metric) (m : Metric) (hinv : HeapInv q seen h) :
    HeapInv q (seen ++ [m]) (pushStep q h m) := by
  obtain ⟨rest, hperm, hdom, hlen, hheap⟩ := hinv
  have hmaplen : (seen.map (diffMetric q)).length = seen.length := List.length_map ..
  have hseensplit : seen.length = h.length + rest.length := by
    have := hperm.length_eq
    rw [hmaplen, List.length_append] at this
    exact this
  unfold pushStep
  have hpp := heapPushGo_perm h (diffMetric q m)
  have hplen : (heapPushGo h (diffMetric q m)).length = h.length + 1 :=
    heapPushGo_length ..
  have hmapstep : ((seen ++ [m]).map (diffMetric q)) =
      seen.map (diffMetric q) ++ [diffMetric q m] := by simp
  by_cases h5 : 5 < (heapPushGo h (diffMetric q m)).length
  · simp only [if_pos h5]
    have hlen5 : h.length = 5 := by omega
    have hne : heapPushGo h (diffMetric q m) ≠ [] := by
      intro hnil
      rw [hnil] at hplen
      simp at hplen
    have hpop_perm := heapPopGo_perm _ hne
    have hpop_max := heapPopGo_max _ hne (heapPushGo_heap h _ hheap)
    have hpop_heap := heapPopGo_heap _ hne (heapPushGo_heap h _ hheap)
    have hpop_len := heapPopGo_length _ hne
    refine ⟨(heapPopGo (heapPushGo h (diffMetric q m))).1 :: rest, ?_, ?_, ?_, hpop_heap⟩
    · rw [hmapstep]
      refine (hperm.append_right [diffMetric q m]).trans ?_
      refine (List.perm_append_singleton _ _).trans ?_
      have step1 : (diffMetric q m :: (h ++ rest)).Perm
          ((heapPushGo h (diffMetric q m)) ++ rest) := by
        show ((diffMetric q m :: h) ++ rest).Perm _
        exact (hpp.append_right rest).symm
      refine step1.trans ?_
      refine ((hpop_perm.append_right rest)).trans ?_
      show (((heapPopGo (heapPushGo h (diffMetric q m))).1 ::
        (heapPopGo (heapPushGo h (diffMetric q m))).2) ++ rest).Perm _
      rw [List.cons_append]
      exact List.perm_middle.symm
    · intro x hx y hy
      rcases List.mem_cons.mp hy with rfl | hyr
      · exact hpop_max x (hpop_perm.mem_iff.mpr (List.mem_cons_of_mem _ hx))
      · by_cases hxh : x ∈ h
        · exact hdom x hxh y hyr
        · have hx6 : x ∈ heapPushGo h (diffMetric q m) :=
            hpop_perm.mem_iff.mpr (List.mem_cons_of_mem _ hx)
          have hxd : x = diffMetric q m := by
            rcases List.mem_cons.mp (hpp.mem_iff.mp hx6) with h' | h'
            · exact h'
            · exact absurd h' hxh
          by_cases hmxh : (heapPopGo (heapPushGo h (diffMetric q m))).1 ∈ h
          · refine le_trans ?_ (hdom _ hmxh y hyr)
            exact hpop_max x hx6
          · have hmx6 : (heapPopGo (heapPushGo h (diffMetric q m))).1 ∈
                heapPushGo h (diffMetric q m) :=
              hpop_perm.mem_iff.mpr (List.mem_cons_self _ _)
            have hmxd : (heapPopGo (heapPushGo h (diffMetric q m))).1 = diffMetric q m := by
              rcases List.mem_cons.mp (hpp.mem_iff.mp hmx6) with h' | h'
              · exact h'
              · exact absurd h' hmxh
            exfalso
            have hcnt := (hpop_perm.symm.trans hpp).count_eq (diffMetric q m)
            rw [List.count_cons, List.count_cons, hmxd] at hcnt
            have hxh' : x ∈ (heapPopGo (heapPushGo h (diffMetric q m))).2 := hx
            have hc1 : 1 ≤ List.count (diffMetric q m)
                (heapPopGo (heapPushGo h (diffMetric q m))).2 :=
              List.one_le_count_iff.mpr (hxd ▸ hxh')
            have hc0 : List.count (diffMetric q m) h = 0 :=
              List.count_eq_zero.mpr (fun hmem => hxh (hxd ▸ hmem))
            simp only [beq_self_eq_true, if_true] at hcnt
            omega
    · rw [hpop_len, hplen, hlen5]
      have : (seen ++ [m]).length = seen.length + 1 := by simp
      rw [this]
      omega
  · simp only [if_neg h5]
    have hrest : rest = [] := by
      have hlen4 : h.length ≤ 4 := by omega
      have : seen.length ≤ 4 := by
        rw [hseensplit]
        by_contra hcon
        have : 5 ≤ min seen.length 5 := by omega
        omega
      have : rest.length = 0 := by omega
      exact List.eq_nil_of_length_eq_zero this
    subst hrest
    refine ⟨[], ?_, ?_, ?_, heapPushGo_heap h _ hheap⟩
    · rw [hmapstep]
      rw [List.append_nil] at hperm
      rw [List.append_nil]
      exact (hperm.append_right [diffMetric q m]).trans
        ((List.perm_append_singleton _ _).trans hpp.symm)
    · intro x _ y hy
      exact absurd hy (List.not_mem_nil y)
    · rw [hplen, hlen]
      have : (seen ++ [m]).length = seen.length + 1 := by simp
      rw [this]
      omega

theorem foldl_pushStep_inv (q : Nat) :
    ∀ (ms seen h : List Metric), HeapInv q seen h →
      HeapInv q (seen ++ ms) (ms.foldl (pushStep q) h) := by
  intro ms
  induction ms with
  | nil => intro seen h hinv; simpa using hinv
  | cons m ms ih =>
    intro seen h hinv
    have step := pushStep_inv q seen h m hinv
    have rec := ih (seen ++ [m]) (pushStep q h m) step
    simpa [List.append_assoc] using rec

theorem heapInv_start (q : Nat) : HeapInv q [] [] := by
  refine ⟨[], by simp, by intro x hx; simp at hx, by simp, ?_⟩
  intro k hk0 hk
  simp at hk

theorem drainF_perm : ∀ (fuel : Nat) (l : List Metric), l.length ≤ fuel →
    (drainF fuel l).Perm (l.map (fun m => m.latency)) := by
  intro fuel
  induction fuel with
  | zero =>
    intro l hl
    have : l = [] := List.eq_nil_of_length_eq_zero (by omega)
    subst this
    simp [drainF]
  | succ fuel ih =>
    intro l hl
    by_cases h0 : l.length = 0
    · have : l = [] := List.eq_nil_of_length_eq_zero h0
      subst this
      simp [drainF]
    · have hne : l ≠ [] := by
        intro hnil
        subst hnil
        simp at h0
      simp only [drainF, if_neg h0]
      have hpp := heapPopGo_perm l hne
      have hlen2 : (heapPopGo l).2.length = l.length - 1 := heapPopGo_length l hne
      have hrec := ih (heapPopGo l).2 (by omega)
      have hmap := hpp.map (fun m : Metric => m.latency)
      rw [List.map_cons] at hmap
      exact (List.Perm.cons _ hrec).trans hmap.symm

/-- The nearest-RIF estimator on a ring of at least 5 samples: there is a
split of the diff-tagged samples into a 5-element `S` (the heap's final
content) dominating the rest on `|rif − q|`, and the result is the middle
element of `S`'s ascending latencies. -/
theorem getNearestLatencies_spec (ms : List Metric) (q : Nat) (h5 : 5 ≤ ms.length) :
    ∃ S rest, (ms.map (diffMetric q)).Perm (S ++ rest) ∧ S.length = 5 ∧
      (∀ x ∈ S, ∀ y ∈ rest, x.rif ≤ y.rif) ∧
      getNearestLatencies ms q =
        (List.insertionSort (· ≤ ·) (S.map (fun m => m.latency))).getD 2 0 := by
  have hinv := foldl_pushStep_inv q ms [] [] (heapInv_start q)
  rw [List.nil_append] at hinv
  obtain ⟨rest, hperm, hdom, hlen, hheap⟩ := hinv
  have hlen5 : (ms.foldl (pushStep q) []).length = 5 := by
    rw [hlen]
    exact Nat.min_eq_right h5
  refine ⟨ms.foldl (pushStep q) [], rest, hperm, hlen5, hdom, ?_⟩
  unfold getNearestLatencies
  rw [if_neg (by omega)]
  show (List.insertionSort (· ≤ ·) (drain (ms.foldl (pushStep q) []))).getD
      ((List.insertionSort (· ≤ ·) (drain (ms.foldl (pushStep q) []))).length / 2) 0 = _
  have hdp : (drain (ms.foldl (pushStep q) [])).Perm
      ((ms.foldl (pushStep q) []).map (fun m => m.latency)) := by
    unfold drain
    exact drainF_perm _ _ (le_refl _)
  have hsorteq : List.insertionSort (· ≤ ·) (drain (ms.foldl (pushStep q) [])) =
      List.insertionSort (· ≤ ·) ((ms.foldl (pushStep q) []).map (fun m => m.latency)) :=
    List.eq_of_perm_of_sorted
      ((List.perm_insertionSort _ _).trans (hdp.trans (List.perm_insertionSort _ _).symm))
      (List.sorted_insertionSort _ _) (List.sorted_insertionSort _ _)
  rw [hsorteq]
  have hL : (List.insertionSort (· ≤ ·)
      ((ms.foldl (pushStep q) []).map (fun m => m.latency))).length = 5 := by
    rw [(List.perm_insertionSort _ _).length_eq, List.length_map, hlen5]
  rw [hL]

/-- C2: over any ring of at least 5 samples, `getNearestLatencies q` returns
the median — the element at index `⌊5/2⌋ = 2` of the ascending-sorted
latencies — of 5 samples whose `|sample.rif − q|` diffs are smallest (the
heap's tie-break chooses among equal boundary diffs); and on the recorded ring
`(1,10ms), (3,20ms), (9,30ms), (21,40ms), (42,50ms), (1,60ms), (7,70ms)`:
`estimate(3) = 30ms`, `estimate(15) = 40ms`, `estimate(1) = 30ms`,
`estimate(70) = 40ms`. -/
theorem getNearestLatencies_median :
    (∀ (ms : List Metric) (q : Nat), 5 ≤ ms.length →
      ∃ S rest, (ms.map (diffMetric q)).Perm (S ++ rest) ∧ S.length = 5 ∧
        (∀ x ∈ S, ∀ y ∈ rest, x.rif ≤ y.rif) ∧
        getNearestLatencies ms q =
          (List.insertionSort (· ≤ ·) (S.map (fun m => m.latency))).getD 2 0) ∧
    getNearestLatencies ringEx 3 = 30000000 ∧
    getNearestLatencies ringEx 15 = 40000000 ∧
    getNearestLatencies ringEx 1 = 30000000 ∧
    getNearestLatencies ringEx 70 = 40000000 :=
  ⟨getNearestLatencies_spec, by decide, by decide, by decide, by decide⟩

/-- Witness for C2: the nearest-RIF median property instantiated at the
concrete 7-sample ring and the query `q = 3`. -/
theorem getNearestLatencies_median_witness :
    5 ≤ ringEx.length ∧
      (∃ S rest, (ringEx.map (diffMetric 3)).Perm (S ++ rest) ∧ S.length = 5 ∧
        (∀ x ∈ S, ∀ y ∈ rest, x.rif ≤ y.rif) ∧
        getNearestLatencies ringEx 3 =
          (List.insertionSort (· ≤ ·) (S.map (fun m => m.latency))).getD 2 0) :=
  ⟨by decide, getNearestLatencies_median.1 ringEx 3 (by decide)⟩

/-! ## The Go selection loops: first occurrence of the extremal key -/

theorem nthP_cons_zero (a : ProbeInfo) (t : List ProbeInfo) : nthP (a :: t) 0 = a := rfl

theorem nthP_cons_succ (a : ProbeInfo) (t : List ProbeInfo) (i : Nat) :
    nthP (a :: t) (i + 1) = nthP t i := rfl

theorem nthP_mem (l : List ProbeInfo) (i : Nat) (h : i < l.length) : nthP l i ∈ l := by
  unfold nthP
  rw [List.getD_eq_getElem l _ h]
  exact List.getElem_mem h

/-- A loop of the shape `for p in t { if key p < key sel { sel = p } }` started
at `a` returns the first element of `a :: t` attaining the minimal key. -/
theorem foldl_pick_spec {α : Type} [LinearOrder α] (key : ProbeInfo → α) :
    ∀ (t : List ProbeInfo) (a : ProbeInfo),
      ∃ i, i < (a :: t).length ∧
        t.foldl (fun sel p => if key p < key sel then p else sel) a = nthP (a :: t) i ∧
        (∀ p ∈ a :: t, key (nthP (a :: t) i) ≤ key p) ∧
        (∀ j, j < i → key (nthP (a :: t) i) < key (nthP (a :: t) j)) := by
  intro t
  induction t with
  | nil =>
    intro a
    refine ⟨0, by simp, rfl, ?_, by intro j hj; omega⟩
    intro p hp
    rcases List.mem_singleton.mp hp with rfl
    exact le_refl _
  | cons p t ih =>
    intro a
    rw [List.foldl_cons]
    by_cases hc : key p < key a
    · rw [if_pos hc]
      obtain ⟨i, hi, heq, hmin, hfirst⟩ := ih p
      refine ⟨i + 1, by simpa using hi, ?_, ?_, ?_⟩
      · rw [nthP_cons_succ]
        exact heq
      · intro x hx
        rw [nthP_cons_succ]
        rcases List.mem_cons.mp hx with rfl | hx'
        · exact le_trans (hmin p (List.mem_cons_self p t)) (le_of_lt hc)
        · exact hmin x hx'
      · intro j hj
        rcases j with _ | j'
        · rw [nthP_cons_succ, nthP_cons_zero]
          exact lt_of_le_of_lt (hmin p (List.mem_cons_self p t)) hc
        · rw [nthP_cons_succ, nthP_cons_succ]
          exact hfirst j' (by omega)
    · rw [if_neg hc]
      obtain ⟨i, hi, heq, hmin, hfirst⟩ := ih a
      rcases i with _ | s
      · refine ⟨0, by simp, heq, ?_, by intro j hj; omega⟩
        intro x hx
        rw [nthP_cons_zero]
        have ha0 : key (nthP (a :: t) 0) = key a := by rw [nthP_cons_zero]
        rcases List.mem_cons.mp hx with rfl | hx'
        · exact le_refl _
        · rcases List.mem_cons.mp hx' with rfl | hx''
          · exact le_of_not_lt hc
          · have := hmin x (List.mem_cons_of_mem a hx'')
            rwa [ha0] at this
      · have hval : nthP (a :: t) (s + 1) = nthP t s := nthP_cons_succ ..
        refine ⟨s + 2, ?_, ?_, ?_, ?_⟩
        · simp only [List.length_cons] at hi ⊢
          omega
        · rw [show s + 2 = (s + 1) + 1 from rfl, nthP_cons_succ, nthP_cons_succ]
          rw [hval] at heq
          exact heq
        · intro x hx
          rw [show s + 2 = (s + 1) + 1 from rfl, nthP_cons_succ, nthP_cons_succ]
          rw [hval] at hmin
          rcases List.mem_cons.mp hx with rfl | hx'
          · exact hmin x (List.mem_cons_self x t)
          · rcases List.mem_cons.mp hx' with rfl | hx''
            · have h0 := hfirst 0 (by omega)
              rw [hval, nthP_cons_zero] at h0
              exact le_trans (le_of_lt h0) (le_of_not_lt hc)
            · exact hmin x (List.mem_cons_of_mem a hx'')
        · intro j hj
          rw [show s + 2 = (s + 1) + 1 from rfl, nthP_cons_succ a (p :: t) (s + 1),
            nthP_cons_succ p t s, ← hval]
          rcases j with _ | j'
          · rw [nthP_cons_zero]
            have h0 := hfirst 0 (by omega)
            rwa [nthP_cons_zero] at h0
          · rcases j' with _ | j''
            · rw [nthP_cons_succ a (p :: t) 0, nthP_cons_zero p t]
              have h0 := hfirst 0 (by omega)
              rw [nthP_cons_zero] at h0
              exact lt_of_lt_of_le h0 (le_of_not_lt hc)
            · rw [nthP_cons_succ a (p :: t) (j'' + 1), nthP_cons_succ p t j'',
                ← nthP_cons_succ a t j'']
              exact hfirst (j'' + 1) (by omega)

/-- The exact Go loop: iterate over the whole list, the running candidate
initialised to element 0. -/
theorem foldl_pick_full {α : Type} [LinearOrder α] (key : ProbeInfo → α)
    (l : List ProbeInfo) (hne : l ≠ []) :
    ∃ i, i < l.length ∧
      l.foldl (fun sel p => if key p < key sel then p else sel) (l.headD default) = nthP l i ∧
      (∀ p ∈ l, key (nthP l i) ≤ key p) ∧
      (∀ j, j < i → key (nthP l i) < key (nthP l j)) := by
  obtain ⟨a, t, rfl⟩ := List.exists_cons_of_ne_nil hne
  rw [List.headD_cons, List.foldl_cons, if_neg (lt_irrefl (key a))]
  exact foldl_pick_spec key t a

/-! ## Unfolding and membership lemmas for the client operations -/

theorem selectedProbe_eq (c : ClientState) :
    selectedProbe c =
      if c.probes.filter (fun p => !isProbeHot c.config p) ≠ [] then
        (c.probes.filter (fun p => !isProbeHot c.config p)).foldl
          (fun sel p => if p.rif < sel.rif then p else sel)
          ((c.probes.filter (fun p => !isProbeHot c.config p)).headD default)
      else
        (c.probes.filter (fun p => isProbeHot c.config p)).foldl
          (fun sel p => if p.latency < sel.latency then p else sel)
          ((c.probes.filter (fun p => isProbeHot c.config p)).headD default) := rfl

theorem removeVictim_eq (c : ClientState) :
    removeVictim c =
      if c.probes.filter (fun p => isProbeHot c.config p) ≠ [] then
        (c.probes.filter (fun p => isProbeHot c.config p)).foldl
          (fun sel p => if sel.rif < p.rif then p else sel)
          ((c.probes.filter (fun p => isProbeHot c.config p)).headD default)
      else
        c.probes.foldl (fun sel p => if sel.latency < p.latency then p else sel)
          (c.probes.headD default) := rfl

theorem selectReplica_eq_pos (c : ClientState) (hne : c.probes ≠ []) :
    selectReplica c = ((selectedProbe c).serverId, none,
      { c with probes := incrementFirstMatch c.probes (selectedProbe c).serverId }) := by
  unfold selectReplica
  rw [if_neg hne]

theorem removeProbe_eq_pos (c : ClientState) (hne : c.probes ≠ []) :
    removeProbe c = { c with probes := removeFirstById c.probes (removeVictim c).serverId } := by
  unfold removeProbe
  rw [if_neg hne]

theorem selectedProbe_mem (c : ClientState) (hne : c.probes ≠ []) :
    selectedProbe c ∈ c.probes := by
  rw [selectedProbe_eq]
  by_cases hcold : c.probes.filter (fun p => !isProbeHot c.config p) ≠ []
  · rw [if_pos hcold]
    obtain ⟨i, hi, heq, _, _⟩ := foldl_pick_full (fun p : ProbeInfo => p.rif) _ hcold
    have heq' : (c.probes.filter (fun p => !isProbeHot c.config p)).foldl
        (fun sel p => if p.rif < sel.rif then p else sel)
        ((c.probes.filter (fun p => !isProbeHot c.config p)).headD default) =
        nthP (c.probes.filter (fun p => !isProbeHot c.config p)) i := heq
    rw [heq']
    exact List.mem_of_mem_filter (nthP_mem _ i hi)
  · rw [if_neg hcold]
    have hne' : c.probes.filter (fun p => isProbeHot c.config p) ≠ [] := by
      obtain ⟨p0, t0, hpt⟩ := List.exists_cons_of_ne_nil hne
      by_cases hh : isProbeHot c.config p0
      · intro hnil
        have hmemp : p0 ∈ c.probes.filter (fun p => isProbeHot c.config p) :=
          List.mem_filter.mpr ⟨by rw [hpt]; exact List.mem_cons_self p0 t0, hh⟩
        rw [hnil] at hmemp
        exact List.not_mem_nil p0 hmemp
      · exfalso
        apply hcold
        intro hnil
        have hmemp : p0 ∈ c.probes.filter (fun p => !isProbeHot c.config p) :=
          List.mem_filter.mpr ⟨by rw [hpt]; exact List.mem_cons_self p0 t0, by simpa using hh⟩
        rw [hnil] at hmemp
        exact List.not_mem_nil p0 hmemp
    obtain ⟨i, hi, heq, _, _⟩ := foldl_pick_full (fun p : ProbeInfo => p.latency) _ hne'
    have heq' : (c.probes.filter (fun p => isProbeHot c.config p)).foldl
        (fun sel p => if p.latency < sel.latency then p else sel)
        ((c.probes.filter (fun p => isProbeHot c.config p)).headD default) =
        nthP (c.probes.filter (fun p => isProbeHot c.config p)) i := heq
    rw [heq']
    exact List.mem_of_mem_filter (nthP_mem _ i hi)

theorem hotFilter_ne_of_coldFilter_eq (c : ClientState) (hne : c.probes ≠ [])
    (hcold : c.probes.filter (fun p => !isProbeHot c.config p) = []) :
    c.probes.filter (fun p => isProbeHot c.config p) ≠ [] := by
  obtain ⟨p0, t0, hpt⟩ := List.exists_cons_of_ne_nil hne
  by_cases hh : isProbeHot c.config p0
  · intro hnil
    have hmemp : p0 ∈ c.probes.filter (fun p => isProbeHot c.config p) :=
      List.mem_filter.mpr ⟨by rw [hpt]; exact List.mem_cons_self p0 t0, hh⟩
    rw [hnil] at hmemp
    exact List.not_mem_nil p0 hmemp
  · exfalso
    have hmemp : p0 ∈ c.probes.filter (fun p => !isProbeHot c.config p) :=
      List.mem_filter.mpr ⟨by rw [hpt]; exact List.mem_cons_self p0 t0, by simpa using hh⟩
    rw [hcold] at hmemp
    exact List.not_mem_nil p0 hmemp

theorem removeVictim_mem (c : ClientState) (hne : c.probes ≠ []) :
    removeVictim c ∈ c.probes := by
  rw [removeVictim_eq]
  by_cases hhot : c.probes.filter (fun p => isProbeHot c.config p) ≠ []
  · rw [if_pos hhot]
    obtain ⟨i, hi, heq, _, _⟩ := foldl_pick_full
      (fun p : ProbeInfo => OrderDual.toDual p.rif) _ hhot
    have heq' : (c.probes.filter (fun p => isProbeHot c.config p)).foldl
        (fun sel p => if sel.rif < p.rif then p else sel)
        ((c.probes.filter (fun p => isProbeHot c.config p)).headD default) =
        nthP (c.probes.filter (fun p => isProbeHot c.config p)) i := heq
    rw [heq']
    exact List.mem_of_mem_filter (nthP_mem _ i hi)
  · rw [if_neg hhot]
    obtain ⟨i, hi, heq, _, _⟩ := foldl_pick_full
      (fun p : ProbeInfo => OrderDual.toDual p.latency) c.probes hne
    have heq' : c.probes.foldl (fun sel p => if sel.latency < p.latency then p else sel)
        (c.probes.headD default) = nthP c.probes i := heq
    rw [heq']
    exact nthP_mem _ i hi

theorem incrementFirstMatch_spec (l : List ProbeInfo) (sid : String)
    (hex : ∃ p ∈ l, p.serverId = sid) :
    ∃ i, i < l.length ∧ (nthP l i).serverId = sid ∧
      (∀ j, j < i → (nthP l j).serverId ≠ sid) ∧
      incrementFirstMatch l sid =
        l.set i { nthP l i with useCount := (nthP l i).useCount + 1 } := by
  induction l with
  | nil =>
    obtain ⟨p, hp, _⟩ := hex
    exact absurd hp (List.not_mem_nil p)
  | cons p ps ih =>
    by_cases hp : p.serverId = sid
    · refine ⟨0, by simp, hp, by intro j hj; omega, ?_⟩
      simp only [incrementFirstMatch, if_pos hp]
      rfl
    · have hex' : ∃ q ∈ ps, q.serverId = sid := by
        obtain ⟨q, hq, hq2⟩ := hex
        rcases List.mem_cons.mp hq with rfl | hq'
        · exact absurd hq2 hp
        · exact ⟨q, hq', hq2⟩
      obtain ⟨i, hi, h1, h2, h3⟩ := ih hex'
      refine ⟨i + 1, by simpa using hi, ?_, ?_, ?_⟩
      · rwa [nthP_cons_succ]
      · intro j hj
        rcases j with _ | j'
        · exact hp
        · rw [nthP_cons_succ]
          exact h2 j' (by omega)
      · simp only [incrementFirstMatch, if_neg hp]
        rw [nthP_cons_succ]
        rw [h3]
        rfl

theorem removeFirstById_spec (l : List ProbeInfo) (sid : String)
    (hex : ∃ p ∈ l, p.serverId = sid) :
    ∃ i, i < l.length ∧ (nthP l i).serverId = sid ∧
      (∀ j, j < i → (nthP l j).serverId ≠ sid) ∧
      removeFirstById l sid = l.eraseIdx i := by
  induction l with
  | nil =>
    obtain ⟨p, hp, _⟩ := hex
    exact absurd hp (List.not_mem_nil p)
  | cons p ps ih =>
    by_cases hp : p.serverId = sid
    · refine ⟨0, by simp, hp, by intro j hj; omega, ?_⟩
      simp only [removeFirstById, if_pos hp]
      rfl
    · have hex' : ∃ q ∈ ps, q.serverId = sid := by
        obtain ⟨q, hq, hq2⟩ := hex
        rcases List.mem_cons.mp hq with rfl | hq'
        · exact absurd hq2 hp
        · exact ⟨q, hq', hq2⟩
      obtain ⟨i, hi, h1, h2, h3⟩ := ih hex'
      refine ⟨i + 1, by simpa using hi, ?_, ?_, ?_⟩
      · rwa [nthP_cons_succ]
      · intro j hj
        rcases j with _ | j'
        · exact hp
        · rw [nthP_cons_succ]
          exact h2 j' (by omega)
      · simp only [removeFirstById, if_neg hp]
        rw [h3]
        rfl

/-! ## Claims about SelectReplica -/

/-- C1: on a non-empty pool, `SelectReplica` returns no error and implements
the HCL rule: if any cold probe exists (normalised RIF below `Q_RIF`), the
returned `server_id` is that of the cold probe with the smallest `rif`,
first-encountered on ties (the cold filter preserves pool order); otherwise
it is that of the hot probe with the smallest `latency`, same tie rule. In
particular, whenever a cold probe exists the returned id belongs to a cold
probe. -/
theorem selectReplica_hcl (c : ClientState) (hne : c.probes ≠ []) :
    (selectReplica c).2.1 = none ∧
    (c.probes.filter (fun p => !isProbeHot c.config p) ≠ [] →
      ∃ i, i < (c.probes.filter (fun p => !isProbeHot c.config p)).length ∧
        (selectReplica c).1 =
          (nthP (c.probes.filter (fun p => !isProbeHot c.config p)) i).serverId ∧
        isProbeHot c.config (nthP (c.probes.filter (fun p => !isProbeHot c.config p)) i)
          = false ∧
        (∀ p ∈ c.probes.filter (fun p => !isProbeHot c.config p),
          (nthP (c.probes.filter (fun p => !isProbeHot c.config p)) i).rif ≤ p.rif) ∧
        (∀ j, j < i →
          (nthP (c.probes.filter (fun p => !isProbeHot c.config p)) i).rif <
            (nthP (c.probes.filter (fun p => !isProbeHot c.config p)) j).rif)) ∧
    (c.probes.filter (fun p => !isProbeHot c.config p) = [] →
      ∃ i, i < (c.probes.filter (fun p => isProbeHot c.config p)).length ∧
        (selectReplica c).1 =
          (nthP (c.probes.filter (fun p => isProbeHot c.config p)) i).serverId ∧
        (∀ p ∈ c.probes.filter (fun p => isProbeHot c.config p),
          (nthP (c.probes.filter (fun p => isProbeHot c.config p)) i).latency ≤ p.latency) ∧
        (∀ j, j < i →
          (nthP (c.probes.filter (fun p => isProbeHot c.config p)) i).latency <
            (nthP (c.probes.filter (fun p => isProbeHot c.config p)) j).latency)) := by
  rw [selectReplica_eq_pos c hne]
  refine ⟨rfl, ?_, ?_⟩
  · intro hcold
    obtain ⟨i, hi, heq, hmin, hfirst⟩ :=
      foldl_pick_full (fun p : ProbeInfo => p.rif) _ hcold
    have heq' : (c.probes.filter (fun p => !isProbeHot c.config p)).foldl
        (fun sel p => if p.rif < sel.rif then p else sel)
        ((c.probes.filter (fun p => !isProbeHot c.config p)).headD default) =
        nthP (c.probes.filter (fun p => !isProbeHot c.config p)) i := heq
    have hselp : selectedProbe c =
        nthP (c.probes.filter (fun p => !isProbeHot c.config p)) i := by
      rw [selectedProbe_eq, if_pos hcold, heq']
    refine ⟨i, hi, by rw [hselp], ?_, hmin, hfirst⟩
    have hm := List.mem_filter.mp (nthP_mem _ i hi)
    simpa using hm.2
  · intro hcold
    have hhot := hotFilter_ne_of_coldFilter_eq c hne hcold
    obtain ⟨i, hi, heq, hmin, hfirst⟩ :=
      foldl_pick_full (fun p : ProbeInfo => p.latency) _ hhot
    have heq' : (c.probes.filter (fun p => isProbeHot c.config p)).foldl
        (fun sel p => if p.latency < sel.latency then p else sel)
        ((c.probes.filter (fun p => isProbeHot c.config p)).headD default) =
        nthP (c.probes.filter (fun p => isProbeHot c.config p)) i := heq
    have hselp : selectedProbe c =
        nthP (c.probes.filter (fun p => isProbeHot c.config p)) i := by
      rw [selectedProbe_eq, if_neg (by simpa using hcold), heq']
    exact ⟨i, hi, by rw [hselp], hmin, hfirst⟩

/-- Witness for C1 at the spec's scenario-2 pool: `A` hot, `B` cold, so the
selection must return the cold probe's id. -/
theorem selectReplica_hcl_witness :
    clientC1W.probes ≠ [] ∧
    ((selectReplica clientC1W).2.1 = none ∧
    (clientC1W.probes.filter (fun p => !isProbeHot clientC1W.config p) ≠ [] →
      ∃ i, i < (clientC1W.probes.filter (fun p => !isProbeHot clientC1W.config p)).length ∧
        (selectReplica clientC1W).1 =
          (nthP (clientC1W.probes.filter (fun p => !isProbeHot clientC1W.config p)) i).serverId ∧
        isProbeHot clientC1W.config
          (nthP (clientC1W.probes.filter (fun p => !isProbeHot clientC1W.config p)) i)
          = false ∧
        (∀ p ∈ clientC1W.probes.filter (fun p => !isProbeHot clientC1W.config p),
          (nthP (clientC1W.probes.filter (fun p => !isProbeHot clientC1W.config p)) i).rif
            ≤ p.rif) ∧
        (∀ j, j < i →
          (nthP (clientC1W.probes.filter (fun p => !isProbeHot clientC1W.config p)) i).rif <
            (nthP (clientC1W.probes.filter (fun p => !isProbeHot clientC1W.config p)) j).rif)) ∧
    (clientC1W.probes.filter (fun p => !isProbeHot clientC1W.config p) = [] →
      ∃ i, i < (clientC1W.probes.filter (fun p => isProbeHot clientC1W.config p)).length ∧
        (selectReplica clientC1W).1 =
          (nthP (clientC1W.probes.filter (fun p => isProbeHot clientC1W.config p)) i).serverId ∧
        (∀ p ∈ clientC1W.probes.filter (fun p => isProbeHot clientC1W.config p),
          (nthP (clientC1W.probes.filter (fun p => isProbeHot clientC1W.config p)) i).latency
            ≤ p.latency) ∧
        (∀ j, j < i →
          (nthP (clientC1W.probes.filter (fun p => isProbeHot clientC1W.config p)) i).latency <
            (nthP (clientC1W.probes.filter (fun p => isProbeHot clientC1W.config p)) j).latency))) :=
  ⟨by decide, selectReplica_hcl clientC1W (by decide)⟩

/-- C8: with an empty probe pool, `SelectReplica` returns the empty id and
the recoverable "no probes available" error, and leaves the client state
unchanged — for any job label (the job string is only used for metrics and
does not enter the embedded result). -/
theorem selectReplica_empty (c : ClientState) (h : c.probes = []) :
    selectReplica c = ("", some "no probes available", c) := by
  unfold selectReplica
  rw [if_pos h]

/-- Witness for C8: immediately after construction the pool is empty and
selection fails recoverably. -/
theorem selectReplica_empty_witness :
    (newClient cfgC3 ["a", "b"]).probes = [] ∧
    selectReplica (newClient cfgC3 ["a", "b"]) =
      ("", some "no probes available", newClient cfgC3 ["a", "b"]) :=
  ⟨rfl, selectReplica_empty _ rfl⟩

/-- C10: on every successful selection exactly one pool entry is mutated: the
first entry (in pool order) whose `server_id` equals the returned id gets its
`use_count` incremented by one; the rest of that entry, all other entries, the
pool length (`List.set` preserves it) and `max_rif` are unchanged. The
incremented entry is the first id match, not necessarily the winning entry. -/
theorem selectReplica_frame (c : ClientState) (hne : c.probes ≠ []) :
    ∃ i, i < c.probes.length ∧
      (nthP c.probes i).serverId = (selectReplica c).1 ∧
      (∀ j, j < i → (nthP c.probes j).serverId ≠ (selectReplica c).1) ∧
      (selectReplica c).2.2.probes =
        c.probes.set i { nthP c.probes i with useCount := (nthP c.probes i).useCount + 1 } ∧
      (selectReplica c).2.2.maxRIF = c.maxRIF ∧
      (selectReplica c).2.2.config = c.config ∧
      (selectReplica c).2.2.servers = c.servers := by
  have hex : ∃ p ∈ c.probes, p.serverId = (selectedProbe c).serverId :=
    ⟨selectedProbe c, selectedProbe_mem c hne, rfl⟩
  obtain ⟨i, hi, h1, h2, h3⟩ := incrementFirstMatch_spec c.probes _ hex
  rw [selectReplica_eq_pos c hne]
  exact ⟨i, hi, h1, h2, h3, rfl, rfl, rfl⟩

/-- Witness for C10: a pool with two entries for server `A` (the cold first
entry and the hot second one): the returned id is `A`, and the first entry is
the one incremented. -/
theorem selectReplica_frame_witness :
    clientC5.probes ≠ [] ∧
    (∃ i, i < clientC5.probes.length ∧
      (nthP clientC5.probes i).serverId = (selectReplica clientC5).1 ∧
      (∀ j, j < i → (nthP clientC5.probes j).serverId ≠ (selectReplica clientC5).1) ∧
      (selectReplica clientC5).2.2.probes =
        clientC5.probes.set i
          { nthP clientC5.probes i with useCount := (nthP clientC5.probes i).useCount + 1 } ∧
      (selectReplica clientC5).2.2.maxRIF = clientC5.maxRIF ∧
      (selectReplica clientC5).2.2.config = clientC5.config ∧
      (selectReplica clientC5).2.2.servers = clientC5.servers) :=
  ⟨by decide, selectReplica_frame clientC5 (by decide)⟩

/-! ## Claims about eviction and purge -/

theorem nthP_eq_getElem (l : List ProbeInfo) (i : Nat) (h : i < l.length) :
    nthP l i = l[i] := List.getD_eq_getElem l _ h

theorem serverId_index_unique (l : List ProbeInfo)
    (hnodup : (l.map (fun p => p.serverId)).Nodup) (i j : Nat) (hi : i < l.length)
    (hj : j < l.length) (h : (nthP l i).serverId = (nthP l j).serverId) : i = j := by
  rw [List.nodup_iff_injective_get] at hnodup
  have hmi : i < (l.map (fun p => p.serverId)).length := by simpa using hi
  have hmj : j < (l.map (fun p => p.serverId)).length := by simpa using hj
  have hval : (l.map (fun p => p.serverId)).get ⟨i, hmi⟩ =
      (l.map (fun p => p.serverId)).get ⟨j, hmj⟩ := by
    rw [List.get_eq_getElem, List.get_eq_getElem, List.getElem_map, List.getElem_map]
    rw [nthP_eq_getElem l i hi, nthP_eq_getElem l j hj] at h
    exact h
  have := hnodup hval
  simpa using this

/-- C5 (corrected): on a non-empty pool with pairwise-distinct server ids,
`removeProbe` removes exactly one probe: with hot probes present, the hot
probe of largest `rif` (the first among the hot sublist on ties); with an
all-cold pool, the probe of largest `latency` (first on ties). Without the
distinct-id hypothesis only the first pool entry carrying the victim's
`ServerID` is removed (see the counterexample). -/
theorem removeProbe_spec (c : ClientState) (hne : c.probes ≠ [])
    (hnodup : (c.probes.map (fun p => p.serverId)).Nodup) :
    ∃ i, i < c.probes.length ∧
      (removeProbe c).probes = c.probes.eraseIdx i ∧
      (removeProbe c).probes.length = c.probes.length - 1 ∧
      (c.probes.filter (fun p => isProbeHot c.config p) ≠ [] →
        isProbeHot c.config (nthP c.probes i) = true ∧
        (∀ p ∈ c.probes.filter (fun p => isProbeHot c.config p),
          p.rif ≤ (nthP c.probes i).rif) ∧
        (∃ k, k < (c.probes.filter (fun p => isProbeHot c.config p)).length ∧
          nthP (c.probes.filter (fun p => isProbeHot c.config p)) k = nthP c.probes i ∧
          (∀ j, j < k →
            (nthP (c.probes.filter (fun p => isProbeHot c.config p)) j).rif <
              (nthP c.probes i).rif))) ∧
      (c.probes.filter (fun p => isProbeHot c.config p) = [] →
        (∀ p ∈ c.probes, p.latency ≤ (nthP c.probes i).latency) ∧
        (∀ j, j < i → (nthP c.probes j).latency < (nthP c.probes i).latency)) := by
  have hvm := removeVictim_mem c hne
  have hex : ∃ p ∈ c.probes, p.serverId = (removeVictim c).serverId :=
    ⟨removeVictim c, hvm, rfl⟩
  obtain ⟨i, hi, hid, hfirstid, herase⟩ := removeFirstById_spec c.probes _ hex
  obtain ⟨i', hi', hvi'⟩ := List.mem_iff_getElem.mp hvm
  have hvi'' : nthP c.probes i' = removeVictim c := by
    rw [nthP_eq_getElem c.probes i' hi']
    exact hvi'
  have hii' : i = i' := by
    apply serverId_index_unique c.probes hnodup i i' hi hi'
    rw [hvi'', hid]
  have hvic : nthP c.probes i = removeVictim c := by rw [hii', hvi'']
  have hprobes : (removeProbe c).probes = c.probes.eraseIdx i := by
    rw [removeProbe_eq_pos c hne]
    exact herase
  refine ⟨i, hi, hprobes, ?_, ?_, ?_⟩
  · rw [hprobes]
    rw [List.length_eraseIdx]
    rw [if_pos hi]
  · intro hhot
    obtain ⟨k, hk, heqf, hmin, hfirst⟩ :=
      foldl_pick_full (fun p : ProbeInfo => OrderDual.toDual p.rif) _ hhot
    have heq' : (c.probes.filter (fun p => isProbeHot c.config p)).foldl
        (fun sel p => if sel.rif < p.rif then p else sel)
        ((c.probes.filter (fun p => isProbeHot c.config p)).headD default) =
        nthP (c.probes.filter (fun p => isProbeHot c.config p)) k := heqf
    have hvic2 : removeVictim c =
        nthP (c.probes.filter (fun p => isProbeHot c.config p)) k := by
      rw [removeVictim_eq, if_pos hhot, heq']
    have hipk : nthP c.probes i =
        nthP (c.probes.filter (fun p => isProbeHot c.config p)) k := by
      rw [hvic, hvic2]
    refine ⟨?_, ?_, k, hk, hipk.symm, ?_⟩
    · rw [hipk]
      exact (List.mem_filter.mp (nthP_mem _ k hk)).2
    · intro p hp
      have := hmin p hp
      rw [hipk]
      exact OrderDual.toDual_le_toDual.mp this
    · intro j hj
      have := hfirst j hj
      rw [hipk]
      exact OrderDual.toDual_lt_toDual.mp this
  · intro hhotnil
    obtain ⟨k, hk, heqf, hmin, hfirst⟩ :=
      foldl_pick_full (fun p : ProbeInfo => OrderDual.toDual p.latency) c.probes hne
    have heq' : c.probes.foldl (fun sel p => if sel.latency < p.latency then p else sel)
        (c.probes.headD default) = nthP c.probes k := heqf
    have hvic2 : removeVictim c = nthP c.probes k := by
      rw [removeVictim_eq, if_neg (by simpa using hhotnil), heq']
    have hik : i = k := by
      apply serverId_index_unique c.probes hnodup i k hi hk
      rw [hvic, hvic2]
    subst hik
    refine ⟨?_, ?_⟩
    · intro p hp
      exact OrderDual.toDual_le_toDual.mp (hmin p hp)
    · intro j hj
      exact OrderDual.toDual_lt_toDual.mp (hfirst j hj)

/-- Counterexample to C5 as stated: pool `[coldA, hotA]`, both entries with
`ServerID = "A"`; `hotA` is the unique hot probe (so the claim demands its
removal), yet `removeProbe` deletes the first id match — the cold entry —
leaving exactly the hot probe behind. -/
theorem removeProbe_counterexample :
    clientC5.probes = [coldA, hotA] ∧
    isProbeHot clientC5.config hotA = true ∧
    isProbeHot clientC5.config coldA = false ∧
    hotA.rif = 99 ∧ coldA.rif = 1 ∧
    (removeProbe clientC5).probes = [hotA] :=
  ⟨rfl, by decide, by decide, rfl, rfl, by decide⟩

/-- Witness for C5 at the spec's scenario-4 pool (distinct servers, one hot
entry `rif = 99`, four cold entries): the hot entry is evicted. -/
theorem removeProbe_spec_witness :
    clientC5W.probes ≠ [] ∧
    (clientC5W.probes.map (fun p => p.serverId)).Nodup ∧
    (∃ i, i < clientC5W.probes.length ∧
      (removeProbe clientC5W).probes = clientC5W.probes.eraseIdx i ∧
      (removeProbe clientC5W).probes.length = clientC5W.probes.length - 1 ∧
      (clientC5W.probes.filter (fun p => isProbeHot clientC5W.config p) ≠ [] →
        isProbeHot clientC5W.config (nthP clientC5W.probes i) = true ∧
        (∀ p ∈ clientC5W.probes.filter (fun p => isProbeHot clientC5W.config p),
          p.rif ≤ (nthP clientC5W.probes i).rif) ∧
        (∃ k, k < (clientC5W.probes.filter (fun p => isProbeHot clientC5W.config p)).length ∧
          nthP (clientC5W.probes.filter (fun p => isProbeHot clientC5W.config p)) k =
            nthP clientC5W.probes i ∧
          (∀ j, j < k →
            (nthP (clientC5W.probes.filter (fun p => isProbeHot clientC5W.config p)) j).rif <
              (nthP clientC5W.probes i).rif))) ∧
      (clientC5W.probes.filter (fun p => isProbeHot clientC5W.config p) = [] →
        (∀ p ∈ clientC5W.probes, p.latency ≤ (nthP clientC5W.probes i).latency) ∧
        (∀ j, j < i →
          (nthP clientC5W.probes j).latency < (nthP clientC5W.probes i).latency))) :=
  ⟨by decide, by decide, removeProbe_spec clientC5W (by decide) (by decide)⟩

/-- C6: the purge keeps exactly the probes that are neither stale nor
over-used — it removes precisely those with `now − timestamp ≥ max_probe_age`
or `use_count ≥ b_reuse` (as a filter, it preserves the relative order of the
survivors); every surviving probe satisfies both bounds strictly, and any
pool value violating one of them (e.g. a probe whose `use_count` has reached
`b_reuse` after a selection) is gone. `maxRIF` and the configuration are
untouched. -/
theorem removeStaleAndOverusedProbes_spec (c : ClientState) (now : Int) :
    (removeStaleAndOverusedProbes c now).probes =
      c.probes.filter (fun p =>
        !(decide (c.config.maxProbeAge ≤ now - p.timestamp ∨
            c.config.maxProbeUse ≤ p.useCount))) ∧
    (∀ p ∈ (removeStaleAndOverusedProbes c now).probes,
      p.useCount < c.config.maxProbeUse ∧ now - p.timestamp < c.config.maxProbeAge) ∧
    (∀ p ∈ c.probes,
      (c.config.maxProbeAge ≤ now - p.timestamp ∨ c.config.maxProbeUse ≤ p.useCount) →
      p ∉ (removeStaleAndOverusedProbes c now).probes) ∧
    (removeStaleAndOverusedProbes c now).maxRIF = c.maxRIF ∧
    (removeStaleAndOverusedProbes c now).config = c.config := by
  have hpt : ∀ p : ProbeInfo,
      (decide (now - p.timestamp < c.config.maxProbeAge ∧
        p.useCount < c.config.maxProbeUse)) =
      !(decide (c.config.maxProbeAge ≤ now - p.timestamp ∨
          c.config.maxProbeUse ≤ p.useCount)) := by
    intro p
    rw [← decide_not, decide_eq_decide]
    omega
  refine ⟨?_, ?_, ?_, rfl, rfl⟩
  · show c.probes.filter _ = _
    exact List.filter_congr (fun p _ => hpt p)
  · intro p hp
    have := (List.mem_filter.mp hp).2
    simp only [decide_eq_true_eq] at this
    omega
  · intro p _ hbad hmem
    have := (List.mem_filter.mp hmem).2
    simp only [decide_eq_true_eq] at this
    omega

/-- Witness for C6: in the two-entry pool of `clientC5` at `now = 0`, the
fresh unused probe `coldA` survives the purge with both bounds strict. -/
theorem removeStaleAndOverusedProbes_spec_witness :
    coldA ∈ (removeStaleAndOverusedProbes clientC5 0).probes ∧
    (coldA.useCount < clientC5.config.maxProbeUse ∧
      0 - coldA.timestamp < clientC5.config.maxProbeAge) :=
  ⟨by decide, (removeStaleAndOverusedProbes_spec clientC5 0).2.1 coldA (by decide)⟩

/-! ## Claim about the replica RIF counter -/

/-- C9: the replica's `exit()` (`decrementRIF`) is wrapping `uint64`
subtraction `(v − 1) mod 2^64`: `atomic.AddUint64(&s.rif, ^uint64(0))` has no
underflow guard, so at `v = 0` the counter wraps to `2^64 − 1`, and that
wrapped value is exactly what `HandleProbe` then reports as the current
RIF. -/
theorem decrementRIF_wraps (s : ServerState) (h : s.rif < U64MOD) :
    (((decrementRIF s).2.rif : Int) = ((s.rif : Int) - 1) % (U64MOD : Int)) ∧
    (s.rif = 0 → (decrementRIF s).2.rif = U64MOD - 1) ∧
    (handleProbe (decrementRIF s).2).rif = (decrementRIF s).2.rif ∧
    (decrementRIF s).1 = (decrementRIF s).2.rif := by
  have hgen : ∀ s2 : ServerState, (handleProbe s2).rif = s2.rif := fun _ => rfl
  refine ⟨?_, ?_, hgen _, rfl⟩
  · show ((((s.rif + (U64MOD - 1)) % U64MOD : Nat)) : Int) =
      ((s.rif : Int) - 1) % ((U64MOD : Nat) : Int)
    unfold U64MOD
    omega
  · intro h0
    show (s.rif + (U64MOD - 1)) % U64MOD = U64MOD - 1
    unfold U64MOD
    omega

/-- Witness for C9 at a server whose counter is zero: `exit()` wraps it to
`2^64 − 1` and the probe responder reports the wrapped value. -/
theorem decrementRIF_wraps_witness :
    (⟨0, []⟩ : ServerState).rif < U64MOD ∧
    ((((decrementRIF ⟨0, []⟩).2.rif : Int) = (((⟨0, []⟩ : ServerState).rif : Int) - 1)
        % (U64MOD : Int)) ∧
    ((⟨0, []⟩ : ServerState).rif = 0 → (decrementRIF ⟨0, []⟩).2.rif = U64MOD - 1) ∧
    (handleProbe (decrementRIF ⟨0, []⟩).2).rif = (decrementRIF ⟨0, []⟩).2.rif ∧
    (decrementRIF ⟨0, []⟩).1 = (decrementRIF ⟨0, []⟩).2.rif) :=
  ⟨by decide, decrementRIF_wraps ⟨0, []⟩ (by decide)⟩

/-! ## Claim about the derived reuse bound -/

/-- Counterexample to C4 as stated: at the exact-dyadic configuration
`cfgC4` the ratio is `5/2`; the spec's formula `⌈5/2⌉ = 3` (floored at 1
gives 3), but the code's `int(bReuse)` truncation returns 2. -/
theorem calculateBReuse_ceil_counterexample :
    calculateBReuse cfgC4 = 2 ∧
    max 1 ⌈(1 + cfgC4.deltaReuse) /
      ((1 - (cfgC4.maxProbePoolSize : Rat) / (cfgC4.numReplicas : Rat) * cfgC4.probeRate)
        - 1 / durationSeconds cfgC4.maxProbeAge)⌉ = 3 := by
  have hval : (1 + cfgC4.deltaReuse) /
      ((1 - (cfgC4.maxProbePoolSize : Rat) / (cfgC4.numReplicas : Rat) * cfgC4.probeRate)
        - 1 / durationSeconds cfgC4.maxProbeAge) = 5 / 2 := by
    norm_num [cfgC4, durationSeconds]
  constructor
  · show (if (1 + cfgC4.deltaReuse) /
        ((1 - (cfgC4.maxProbePoolSize : Rat) / (cfgC4.numReplicas : Rat) * cfgC4.probeRate)
          - 1 / durationSeconds cfgC4.maxProbeAge) < 1 then 1 else
        ⌊(1 + cfgC4.deltaReuse) /
          ((1 - (cfgC4.maxProbePoolSize : Rat) / (cfgC4.numReplicas : Rat) * cfgC4.probeRate)
            - 1 / durationSeconds cfgC4.maxProbeAge)⌋) = 2
    rw [hval, if_neg (by norm_num)]
    rw [Int.floor_eq_iff]
    norm_num
  · rw [hval]
    have hc : ⌈(5 / 2 : Rat)⌉ = 3 := by
      rw [Int.ceil_eq_iff]
      norm_num
    rw [hc]
    decide

/-- C4 (corrected): with `N > 0` and `max_probe_age > 0` (and a non-negative
`delta_reuse`), `calculateBReuse` returns at least 1; when the denominator is
negative it returns exactly 1; and when the denominator is positive it
returns `max 1 ⌊(1 + delta_reuse)/denom⌋` — the `int()` conversion truncates,
it does not take the ceiling the claim states (see the counterexample). At
`denom = 0` the Go float division yields `+Inf` and the `int` conversion is
implementation-defined, so no return value is guaranteed there. -/
theorem calculateBReuse_truncation_spec (cfg : Config) (hN : 0 < cfg.numReplicas)
    (hage : 0 < cfg.maxProbeAge) (hδ : 0 ≤ cfg.deltaReuse) :
    1 ≤ calculateBReuse cfg ∧
    ((1 - (cfg.maxProbePoolSize : Rat) / (cfg.numReplicas : Rat) * cfg.probeRate)
        - 1 / durationSeconds cfg.maxProbeAge < 0 → calculateBReuse cfg = 1) ∧
    (0 < (1 - (cfg.maxProbePoolSize : Rat) / (cfg.numReplicas : Rat) * cfg.probeRate)
        - 1 / durationSeconds cfg.maxProbeAge →
      calculateBReuse cfg = max 1 ⌊(1 + cfg.deltaReuse) /
        ((1 - (cfg.maxProbePoolSize : Rat) / (cfg.numReplicas : Rat) * cfg.probeRate)
          - 1 / durationSeconds cfg.maxProbeAge)⌋) := by
  have hcal : calculateBReuse cfg = if (1 + cfg.deltaReuse) /
      ((1 - (cfg.maxProbePoolSize : Rat) / (cfg.numReplicas : Rat) * cfg.probeRate)
        - 1 / durationSeconds cfg.maxProbeAge) < 1 then 1 else
      ⌊(1 + cfg.deltaReuse) /
        ((1 - (cfg.maxProbePoolSize : Rat) / (cfg.numReplicas : Rat) * cfg.probeRate)
          - 1 / durationSeconds cfg.maxProbeAge)⌋ := rfl
  refine ⟨?_, ?_, ?_⟩
  · rw [hcal]
    split
    · exact le_refl 1
    · next hlt =>
      exact Int.le_floor.mpr (by exact_mod_cast le_of_not_lt hlt)
  · intro hD
    rw [hcal, if_pos]
    have hpos : (0 : Rat) < 1 + cfg.deltaReuse := by linarith
    have := div_neg_of_pos_of_neg hpos hD
    linarith
  · intro hD
    rw [hcal]
    split
    · next hlt =>
      have hfl : ⌊(1 + cfg.deltaReuse) /
          ((1 - (cfg.maxProbePoolSize : Rat) / (cfg.numReplicas : Rat) * cfg.probeRate)
            - 1 / durationSeconds cfg.maxProbeAge)⌋ < 1 :=
        Int.floor_lt.mpr (by exact_mod_cast hlt)
      exact (max_eq_left (by omega)).symm
    · next hlt =>
      have hfl : 1 ≤ ⌊(1 + cfg.deltaReuse) /
          ((1 - (cfg.maxProbePoolSize : Rat) / (cfg.numReplicas : Rat) * cfg.probeRate)
            - 1 / durationSeconds cfg.maxProbeAge)⌋ :=
        Int.le_floor.mpr (by exact_mod_cast le_of_not_lt hlt)
      exact (max_eq_right hfl).symm

/-- Witness for C4 at `cfgC4W` (positive denominator `1/4`, ratio `12`). -/
theorem calculateBReuse_truncation_spec_witness :
    0 < cfgC4W.numReplicas ∧ 0 < cfgC4W.maxProbeAge ∧ 0 ≤ cfgC4W.deltaReuse ∧
    (1 ≤ calculateBReuse cfgC4W ∧
    ((1 - (cfgC4W.maxProbePoolSize : Rat) / (cfgC4W.numReplicas : Rat) * cfgC4W.probeRate)
        - 1 / durationSeconds cfgC4W.maxProbeAge < 0 → calculateBReuse cfgC4W = 1) ∧
    (0 < (1 - (cfgC4W.maxProbePoolSize : Rat) / (cfgC4W.numReplicas : Rat) * cfgC4W.probeRate)
        - 1 / durationSeconds cfgC4W.maxProbeAge →
      calculateBReuse cfgC4W = max 1 ⌊(1 + cfgC4W.deltaReuse) /
        ((1 - (cfgC4W.maxProbePoolSize : Rat) / (cfgC4W.numReplicas : Rat) * cfgC4W.probeRate)
          - 1 / durationSeconds cfgC4W.maxProbeAge)⌋)) :=
  ⟨by decide, by decide, by decide,
    calculateBReuse_truncation_spec cfgC4W (by decide) (by decide) (by decide)⟩

/-! ## The probe round: field preservation, fan-out, and normalisation -/

theorem removeProbe_maxRIF (c : ClientState) : (removeProbe c).maxRIF = c.maxRIF := by
  unfold removeProbe
  split <;> rfl

theorem removeProbe_servers (c : ClientState) : (removeProbe c).servers = c.servers := by
  unfold removeProbe
  split <;> rfl

theorem removeProbe_config (c : ClientState) : (removeProbe c).config = c.config := by
  unfold removeProbe
  split <;> rfl

theorem removeProbe_length (c : ClientState) (hne : c.probes ≠ []) :
    (removeProbe c).probes.length = c.probes.length - 1 := by
  have hvm := removeVictim_mem c hne
  obtain ⟨i, hi, _, _, herase⟩ := removeFirstById_spec c.probes _ ⟨removeVictim c, hvm, rfl⟩
  rw [removeProbe_eq_pos c hne]
  show (removeFirstById c.probes (removeVictim c).serverId).length = _
  rw [herase, List.length_eraseIdx, if_pos hi]

theorem selReplica_maxRIF (c : ClientState) : (selectReplica c).2.2.maxRIF = c.maxRIF := by
  unfold selectReplica
  split <;> rfl

theorem probeRoundCapacity_maxRIF (c1 : ClientState) :
    (probeRoundCapacity c1).maxRIF = c1.maxRIF := by
  unfold probeRoundCapacity
  split
  · exact removeProbe_maxRIF c1
  · rfl

theorem probeRoundCapacity_servers (c1 : ClientState) :
    (probeRoundCapacity c1).servers = c1.servers := by
  unfold probeRoundCapacity
  split
  · exact removeProbe_servers c1
  · rfl

theorem updateRIFDistribution_rif (m : Nat) (q : ProbeInfo) :
    (updateRIFDistribution m q).rif = q.rif := by
  unfold updateRIFDistribution
  split <;> rfl

theorem updateRIFDistribution_serverId (m : Nat) (q : ProbeInfo) :
    (updateRIFDistribution m q).serverId = q.serverId := by
  unfold updateRIFDistribution
  split <;> rfl

theorem updateRIFDistribution_norm (m : Nat) (q : ProbeInfo) :
    (updateRIFDistribution m q).normalizedRif =
      if 0 < m then ((updateRIFDistribution m q).rif : Rat) / (m : Rat) else 1 := by
  unfold updateRIFDistribution
  by_cases h : 0 < m
  · simp only [if_pos h]
  · simp only [if_neg h]

theorem probeFanoutStep_eq_none (now : Int) (resp : String → Option (Nat × Duration))
    (st : ClientState) (srv : String) (h : resp srv = none) :
    probeFanoutStep now resp st srv = st := by
  unfold probeFanoutStep
  rw [h]

theorem probeFanoutStep_eq_some (now : Int) (resp : String → Option (Nat × Duration))
    (st : ClientState) (srv : String) (rif : Nat) (latency : Duration)
    (h : resp srv = some (rif, latency)) :
    probeFanoutStep now resp st srv =
      { (if st.maxRIF < rif then { st with maxRIF := rif } else st) with
        probes := (if st.maxRIF < rif then { st with maxRIF := rif } else st).probes
          ++ [⟨rif, latency, srv, now, 0, 0⟩] } := by
  unfold probeFanoutStep
  rw [h]

theorem probeFanoutStep_facts (now : Int) (resp : String → Option (Nat × Duration))
    (st : ClientState) (srv : String) :
    st.maxRIF ≤ (probeFanoutStep now resp st srv).maxRIF ∧
    (probeFanoutStep now resp st srv).config = st.config ∧
    (probeFanoutStep now resp st srv).servers = st.servers ∧
    (∀ p ∈ st.probes, p ∈ (probeFanoutStep now resp st srv).probes) ∧
    (probeFanoutStep now resp st srv).probes.length ≤ st.probes.length + 1 := by
  cases hr : resp srv with
  | none =>
    rw [probeFanoutStep_eq_none now resp st srv hr]
    exact ⟨le_refl _, rfl, rfl, fun p hp => hp, by omega⟩
  | some pr =>
    obtain ⟨rif, latency⟩ := pr
    rw [probeFanoutStep_eq_some now resp st srv rif latency hr]
    by_cases h : st.maxRIF < rif
    · rw [if_pos h]
      exact ⟨le_of_lt h, rfl, rfl, fun p hp => List.mem_append_left _ hp, by simp⟩
    · rw [if_neg h]
      exact ⟨le_refl _, rfl, rfl, fun p hp => List.mem_append_left _ hp, by simp⟩

theorem foldl_fanout_facts (now : Int) (resp : String → Option (Nat × Duration)) :
    ∀ (servers : List String) (st : ClientState),
      st.maxRIF ≤ (servers.foldl (probeFanoutStep now resp) st).maxRIF ∧
      (servers.foldl (probeFanoutStep now resp) st).config = st.config ∧
      (servers.foldl (probeFanoutStep now resp) st).servers = st.servers ∧
      (∀ p ∈ st.probes, p ∈ (servers.foldl (probeFanoutStep now resp) st).probes) ∧
      (servers.foldl (probeFanoutStep now resp) st).probes.length ≤
        st.probes.length + servers.length := by
  intro servers
  induction servers with
  | nil =>
    intro st
    exact ⟨le_refl _, rfl, rfl, fun p hp => hp, by simp⟩
  | cons srv rest ih =>
    intro st
    rw [List.foldl_cons]
    obtain ⟨h1, h2, h3, h4, h5⟩ := probeFanoutStep_facts now resp st srv
    obtain ⟨g1, g2, g3, g4, g5⟩ := ih (probeFanoutStep now resp st srv)
    refine ⟨le_trans h1 g1, by rw [g2, h2], by rw [g3, h3],
      fun p hp => g4 p (h4 p hp), ?_⟩
    simp only [List.length_cons]
    omega

theorem foldl_fanout_covers (now : Int) (resp : String → Option (Nat × Duration)) :
    ∀ (servers : List String) (st : ClientState) (s : String),
      s ∈ servers → (resp s).isSome = true →
      ∃ p ∈ (servers.foldl (probeFanoutStep now resp) st).probes, p.serverId = s := by
  intro servers
  induction servers with
  | nil =>
    intro st s hs _
    exact absurd hs (List.not_mem_nil s)
  | cons srv rest ih =>
    intro st s hs hsome
    rw [List.foldl_cons]
    rcases List.mem_cons.mp hs with rfl | hs'
    · obtain ⟨pr, hpr⟩ := Option.isSome_iff_exists.mp hsome
      obtain ⟨rif, latency⟩ := pr
      have hmem : (⟨rif, latency, s, now, 0, 0⟩ : ProbeInfo) ∈
          (probeFanoutStep now resp st s).probes := by
        rw [probeFanoutStep_eq_some now resp st s rif latency hpr]
        exact List.mem_append_right _ (List.mem_singleton_self _)
      have hfold := (foldl_fanout_facts now resp rest (probeFanoutStep now resp st s)).2.2.2.1
      exact ⟨_, hfold _ hmem, rfl⟩
    · exact ih (probeFanoutStep now resp st srv) s hs' hsome

theorem probeRound_probes_eq (c : ClientState) (now : Int)
    (resp : String → Option (Nat × Duration)) :
    (probeRound c now resp).probes =
      ((probeRoundCapacity (removeStaleAndOverusedProbes c now)).servers.foldl
        (probeFanoutStep now resp)
        (probeRoundCapacity (removeStaleAndOverusedProbes c now))).probes.map
        (updateRIFDistribution
          (((probeRoundCapacity (removeStaleAndOverusedProbes c now)).servers.foldl
            (probeFanoutStep now resp)
            (probeRoundCapacity (removeStaleAndOverusedProbes c now))).maxRIF)) := rfl

theorem probeRound_maxRIF_eq (c : ClientState) (now : Int)
    (resp : String → Option (Nat × Duration)) :
    (probeRound c now resp).maxRIF =
      ((probeRoundCapacity (removeStaleAndOverusedProbes c now)).servers.foldl
        (probeFanoutStep now resp)
        (probeRoundCapacity (removeStaleAndOverusedProbes c now))).maxRIF := rfl

theorem probeRound_maxRIF_mono (c : ClientState) (now : Int)
    (resp : String → Option (Nat × Duration)) :
    c.maxRIF ≤ (probeRound c now resp).maxRIF := by
  rw [probeRound_maxRIF_eq]
  have h1 : (removeStaleAndOverusedProbes c now).maxRIF = c.maxRIF := rfl
  have h2 := probeRoundCapacity_maxRIF (removeStaleAndOverusedProbes c now)
  have h3 := (foldl_fanout_facts now resp
    (probeRoundCapacity (removeStaleAndOverusedProbes c now)).servers
    (probeRoundCapacity (removeStaleAndOverusedProbes c now))).1
  rw [h2, h1] at h3
  exact h3

theorem probeRound_norm (c : ClientState) (now : Int)
    (resp : String → Option (Nat × Duration)) :
    ∀ p ∈ (probeRound c now resp).probes,
      p.normalizedRif = if 0 < (probeRound c now resp).maxRIF
        then (p.rif : Rat) / ((probeRound c now resp).maxRIF : Rat) else 1 := by
  intro p hp
  rw [probeRound_probes_eq] at hp
  obtain ⟨q, _, rfl⟩ := List.mem_map.mp hp
  rw [probeRound_maxRIF_eq]
  exact updateRIFDistribution_norm _ q

/-! ## Claims about the probe round -/

/-- C7: `max_rif` never decreases: the selector leaves it unchanged, purge
and eviction leave it unchanged, and a probe round only ever raises it; and
after the normalisation refresh at the end of every round, every pool entry's
`normalized_rif` equals `rif / max_rif` when `max_rif > 0` and `1` when
`max_rif = 0`. -/
theorem maxRIF_monotone_and_normalisation :
    (∀ c : ClientState, (selectReplica c).2.2.maxRIF = c.maxRIF) ∧
    (∀ (c : ClientState) (now : Int), (removeStaleAndOverusedProbes c now).maxRIF = c.maxRIF) ∧
    (∀ c : ClientState, (removeProbe c).maxRIF = c.maxRIF) ∧
    (∀ (c : ClientState) (now : Int) (resp : String → Option (Nat × Duration)),
      c.maxRIF ≤ (probeRound c now resp).maxRIF) ∧
    (∀ (c : ClientState) (now : Int) (resp : String → Option (Nat × Duration)),
      ∀ p ∈ (probeRound c now resp).probes,
        p.normalizedRif = if 0 < (probeRound c now resp).maxRIF
          then (p.rif : Rat) / ((probeRound c now resp).maxRIF : Rat) else 1) :=
  ⟨selReplica_maxRIF, fun _ _ => rfl, removeProbe_maxRIF, probeRound_maxRIF_mono,
    probeRound_norm⟩

/-- Witness for C7: after one probe round of the concrete client (all
responses `rif = 0`, so `max_rif` stays 0), a concrete pool entry carries
`normalized_rif = 1` as the `max_rif = 0` branch prescribes. -/
theorem maxRIF_monotone_and_normalisation_witness :
    (⟨0, 0, "a", 0, 0, 1⟩ : ProbeInfo) ∈ (probeRound clientC3 0 respC3).probes ∧
    (⟨0, 0, "a", 0, 0, 1⟩ : ProbeInfo).normalizedRif =
      if 0 < (probeRound clientC3 0 respC3).maxRIF
        then (((⟨0, 0, "a", 0, 0, 1⟩ : ProbeInfo)).rif : Rat) /
          ((probeRound clientC3 0 respC3).maxRIF : Rat) else 1 :=
  ⟨by decide,
    maxRIF_monotone_and_normalisation.2.2.2.2 clientC3 0 respC3 ⟨0, 0, "a", 0, 0, 1⟩
      (by decide)⟩

/-- C3 (corrected): after a round in which probing succeeds for all
configured replicas, every replica appears at least once in the pool; and
the `M + N` bound holds provided the pool held at most `M` probes when the
round started. The capacity reserve is an `if` evicting at most one probe
(not a `while`), so from an over-full pool a round can exceed `M + N` — the
counterexample reaches pool size `5 > M + N = 4` from construction. -/
theorem probeRound_coverage_bound (c : ClientState) (now : Int)
    (resp : String → Option (Nat × Duration))
    (hall : ∀ s ∈ c.servers, (resp s).isSome = true)
    (hN : (c.servers.length : Int) = c.config.numReplicas) :
    (∀ s ∈ c.servers, ∃ p ∈ (probeRound c now resp).probes, p.serverId = s) ∧
    ((c.probes.length : Int) ≤ c.config.maxProbePoolSize →
      ((probeRound c now resp).probes.length : Int) ≤
        c.config.maxProbePoolSize + c.config.numReplicas) := by
  have hcapsrv : (probeRoundCapacity (removeStaleAndOverusedProbes c now)).servers =
      c.servers := probeRoundCapacity_servers _
  constructor
  · intro s hs
    have hcov := foldl_fanout_covers now resp
      (probeRoundCapacity (removeStaleAndOverusedProbes c now)).servers
      (probeRoundCapacity (removeStaleAndOverusedProbes c now)) s
      (by rw [hcapsrv]; exact hs) (hall s hs)
    obtain ⟨p, hp, hpid⟩ := hcov
    refine ⟨updateRIFDistribution
      (((probeRoundCapacity (removeStaleAndOverusedProbes c now)).servers.foldl
        (probeFanoutStep now resp)
        (probeRoundCapacity (removeStaleAndOverusedProbes c now))).maxRIF) p, ?_, ?_⟩
    · rw [probeRound_probes_eq]
      exact List.mem_map_of_mem _ hp
    · rw [updateRIFDistribution_serverId]
      exact hpid
  · intro hlen
    have hq : (removeStaleAndOverusedProbes c now).probes.length ≤ c.probes.length :=
      List.length_filter_le _ _
    have hfold := (foldl_fanout_facts now resp
      (probeRoundCapacity (removeStaleAndOverusedProbes c now)).servers
      (probeRoundCapacity (removeStaleAndOverusedProbes c now))).2.2.2.2
    have hsl : (probeRoundCapacity (removeStaleAndOverusedProbes c now)).servers.length =
        c.servers.length := by rw [hcapsrv]
    have hfinal : (probeRound c now resp).probes.length =
        ((probeRoundCapacity (removeStaleAndOverusedProbes c now)).servers.foldl
          (probeFanoutStep now resp)
          (probeRoundCapacity (removeStaleAndOverusedProbes c now))).probes.length := by
      rw [probeRound_probes_eq, List.length_map]
    have hconf : (removeStaleAndOverusedProbes c now).config = c.config := rfl
    have hcaplen : ((probeRoundCapacity (removeStaleAndOverusedProbes c now)).probes.length
        : Int) + 1 ≤ c.config.maxProbePoolSize ∨
        ((probeRoundCapacity (removeStaleAndOverusedProbes c now)).probes.length : Int) = 0 ∧
          c.config.maxProbePoolSize = 0 := by
      unfold probeRoundCapacity
      by_cases hge : (removeStaleAndOverusedProbes c now).config.maxProbePoolSize ≤
          ((removeStaleAndOverusedProbes c now).probes.length : Int)
      · rw [if_pos hge]
        rw [hconf] at hge
        by_cases hnil : (removeStaleAndOverusedProbes c now).probes = []
        · have h0 : (removeStaleAndOverusedProbes c now).probes.length = 0 := by
            rw [hnil]
            rfl
          have hM0 : c.config.maxProbePoolSize = 0 := by
            rw [h0] at hge
            have hnn : (0 : Int) ≤ (c.probes.length : Int) := by positivity
            omega
          right
          refine ⟨?_, hM0⟩
          have hrp : removeProbe (removeStaleAndOverusedProbes c now) =
              removeStaleAndOverusedProbes c now := by
            unfold removeProbe
            rw [if_pos hnil]
          rw [hrp, h0]
          rfl
        · have hrem := removeProbe_length (removeStaleAndOverusedProbes c now) hnil
          left
          rw [hrem]
          have hql : ((removeStaleAndOverusedProbes c now).probes.length : Int) ≤
              c.config.maxProbePoolSize := le_trans (by exact_mod_cast hq) hlen
          have h1 : 1 ≤ (removeStaleAndOverusedProbes c now).probes.length := by
            rcases Nat.eq_zero_or_pos (removeStaleAndOverusedProbes c now).probes.length
              with h0 | h0
            · exact absurd (List.eq_nil_of_length_eq_zero h0) hnil
            · exact h0
          omega
      · rw [if_neg hge]
        rw [hconf] at hge
        left
        omega
    rcases hcaplen with hcap | ⟨hcap0, hM0⟩
    · rw [hfinal, ← hN]
      omega
    · rw [hfinal, ← hN]
      omega

/-- Witness for C3: the corrected statement applied to the concrete client
`clientC3` (empty pool, so the `≤ M` precondition holds) at time `0` with
all-successful responses. -/
theorem probeRound_coverage_bound_witness :
    (∀ s ∈ clientC3.servers, ∃ p ∈ (probeRound clientC3 0 respC3).probes, p.serverId = s) ∧
    ((clientC3.probes.length : Int) ≤ clientC3.config.maxProbePoolSize →
      ((probeRound clientC3 0 respC3).probes.length : Int) ≤
        clientC3.config.maxProbePoolSize + clientC3.config.numReplicas) :=
  probeRound_coverage_bound clientC3 0 respC3 (by decide) (by decide)

/-- Counterexample to C3's unconditional `M + N` bound: from
`newClient cfgC3 ["a", "b"]` (`M = 2`, `N = 2`), four consecutive successful
probe rounds grow the pool to `5 > M + N = 4`. The capacity reserve in
`Probe` is an `if` that evicts at most one probe per round, not a `while`
loop, so the pool's excess accumulates. -/
theorem probeRound_bound_counterexample :
    newClient cfgC3 ["a", "b"] = clientC3 ∧
    (∀ s ∈ clientC3.servers, (respC3 s).isSome = true) ∧
    clientC3run =
      probeRound (probeRound (probeRound (probeRound (newClient cfgC3 ["a", "b"]) 0 respC3)
        1 respC3) 2 respC3) 3 respC3 ∧
    clientC3run.probes.length = 5 ∧
    ¬ ((clientC3run.probes.length : Int) ≤
        cfgC3.maxProbePoolSize + cfgC3.numReplicas) := by
  have h0 : newClient cfgC3 ["a", "b"] = clientC3 := by
    simp [newClient, clientC3, calculateBReuse, durationSeconds, cfgC3]
    norm_num
  refine ⟨h0, by decide, ?_, by decide, by decide⟩
  rw [h0]
  rfl

end GoPrequal
